import Mathlib

/-!
A verification development for the stock-data-warehouse pipeline.

The Python sources are shallowly embedded:

* `rules.py` (`validate_table`)  — `validate`, `processCols`, `processCol`,
  `applyRules`, `applyRule`;
* `merge.py` (the orchestrator)  — `stocks_raw`, `company_metadata`,
  `exchange_rates`, `macro_raw`, `sentimentStage`, `merge`;
* `transform.py` (`calculate_all_kpis`) — `dailyReturns`, `sectorRank`,
  `macroYearQtr`, `calculateAllKpis`.

Machine reals are modelled by `ℚ` (no claim under scrutiny exercises binary
floating-point rounding), Python exceptions by `Except Unit`, pandas missing
values (`NaN`/`None`) by `Value.null`, and timestamps by an abstract `ℤ`
instant.  Genuinely external pieces of the Python runtime — `float`/`str`
formatting and parsing, `pd.to_datetime`, and `re.match` for configured
patterns — are fields of a `PyEnv` parameter; everything the control flow of
the sources decides on is embedded concretely.
-/

/-! ### Python string primitives (`str.strip`, `str.upper`, `str.lower`) -/

/-- ASCII whitespace as recognised by `str.strip` (tab 9, LF 10, VT 11,
FF 12, CR 13, space 32). -/
def isWs (c : Char) : Bool := c.toNat = 32 || (9 ≤ c.toNat && c.toNat ≤ 13)

/-- `str.upper` on one ASCII character. -/
def upChar (c : Char) : Char :=
  if 97 ≤ c.toNat && c.toNat ≤ 122 then Char.ofNat (c.toNat - 32) else c

/-- `str.lower` on one ASCII character. -/
def downChar (c : Char) : Char :=
  if 65 ≤ c.toNat && c.toNat ≤ 90 then Char.ofNat (c.toNat + 32) else c

/-- Python `s.strip()`: drop whitespace from both ends. -/
def pyStrip (s : String) : String := ⟨(s.data.dropWhile isWs).rdropWhile isWs⟩

/-- Python `s.upper()`. -/
def pyUpper (s : String) : String := ⟨s.data.map upChar⟩

/-- Python `s.lower()`. -/
def pyLower (s : String) : String := ⟨s.data.map downChar⟩

/-! ### Integer literal parsing

`rules.py` gates string→integer coercion with `re.fullmatch(r"-?\d+", s)`
and then applies `int(s)`; `transform.py` applies `astype(int)` (Python
`int(str)`, which additionally strips whitespace and accepts a `+` sign). -/

def isDigitCh (c : Char) : Bool := 48 ≤ c.toNat && c.toNat ≤ 57

def digitsVal (l : List Char) : ℤ :=
  l.foldl (fun a c => a * 10 + ((c.toNat : ℤ) - 48)) 0

/-- `re.fullmatch(r"-?\d+", s)` followed by `int(s)`. -/
def intFullParse (s : String) : Option ℤ :=
  match s.data with
  | '-' :: rest => if !rest.isEmpty && rest.all isDigitCh then some (-(digitsVal rest)) else none
  | l => if !l.isEmpty && l.all isDigitCh then some (digitsVal l) else none

/-- Python `int(s)` on a string: strips, allows an optional sign. -/
def pyInt (s : String) : Option ℤ :=
  match (pyStrip s).data with
  | '+' :: rest => if !rest.isEmpty && rest.all isDigitCh then some (digitsVal rest) else none
  | '-' :: rest => if !rest.isEmpty && rest.all isDigitCh then some (-(digitsVal rest)) else none
  | l => if !l.isEmpty && l.all isDigitCh then some (digitsVal l) else none

/-! ### Values and the Python runtime environment -/

/-- A cell value of a dataframe row: missing (`NaN`/`None`/`NaT`), a Python
`str`, `int`, `float` (as `ℚ`), or a `pd.Timestamp` (as an abstract `ℤ`
instant). -/
inductive Value
  | null
  | str (s : String)
  | intV (n : ℤ)
  | floatV (q : ℚ)
  | dateV (d : ℤ)
deriving DecidableEq, Repr

/-- The parts of the Python runtime the sources use that are not embedded
concretely: numeric/date formatting and parsing, and `re.match` for
configured `pattern:` rules.  No law is assumed here; theorems that need a
round-trip law state it as an explicit hypothesis. -/
structure PyEnv where
  parseFloat : String → Option ℚ
  showFloat : ℚ → String
  showInt : ℤ → String
  parseDate : String → Option ℤ
  showDate : ℤ → String
  dtNum : ℚ → Option ℤ
  reMatch : String → String → Bool

/-- `pd.notna`. -/
def pyNotna : Value → Bool
  | .null => false
  | _ => true

/-- Python `str(v)` (never applied to a missing value by the sources). -/
def pyStr (env : PyEnv) : Value → String
  | .null => "nan"
  | .str s => s
  | .intV n => env.showInt n
  | .floatV q => env.showFloat q
  | .dateV d => env.showDate d

/-- Python `float(v)`: `none` models the call raising. -/
def pyFloat (env : PyEnv) : Value → Option ℚ
  | .null => none
  | .str s => env.parseFloat s
  | .intV n => some (n : ℚ)
  | .floatV q => some q
  | .dateV _ => none

/-- `pd.to_datetime(v)`: a timestamp is returned as-is; `none` models the
call raising. -/
def pyToDT (env : PyEnv) : Value → Option ℤ
  | .null => none
  | .str s => env.parseDate s
  | .intV n => env.dtNum (n : ℚ)
  | .floatV q => env.dtNum q
  | .dateV d => some d

/-- Python `==` between cell values (numeric kinds compare by value;
`NaN == NaN` is false). -/
def pyEq : Value → Value → Bool
  | .str a, .str b => a == b
  | .intV a, .intV b => a == b
  | .intV a, .floatV b => (a : ℚ) == b
  | .floatV a, .intV b => a == (b : ℚ)
  | .floatV a, .floatV b => a == b
  | .dateV a, .dateV b => a == b
  | _, _ => false

/-- Python truthiness of a cell value (`NaN` is truthy, `""` and `0` are
falsy). -/
def pyTruthy : Value → Bool
  | .null => true
  | .str s => !s.isEmpty
  | .intV n => n != 0
  | .floatV q => q != 0
  | .dateV _ => true

/-! ### Rows -/

/-- One dataframe row: column name to cell value.  A dataframe never has two
columns of the same name; theorems that rely on this carry a `rowWF`
hypothesis. -/
abbrev Row := List (String × Value)

/-- `row.get(col)`: a missing column reads as missing. -/
def rowGet (r : Row) (col : String) : Value :=
  match r.find? (fun p => p.1 == col) with
  | some p => p.2
  | none => .null

/-- `row.get(col, default)`. -/
def rowGetD (r : Row) (col : String) (d : Value) : Value :=
  match r.find? (fun p => p.1 == col) with
  | some p => p.2
  | none => d

/-- `row_copy[col] = v` (the sources only assign to columns that exist, so
no entry is ever appended). -/
def rowSet (r : Row) (col : String) (v : Value) : Row :=
  r.map (fun p => if p.1 = col then (p.1, v) else p)

/-- Column names of a row are pairwise distinct. -/
def rowWF (r : Row) : Prop := (r.map Prod.fst).Nodup

instance (r : Row) : Decidable (rowWF r) := by unfold rowWF; infer_instance

/-! ### The rule schema (`config.json` tables entries) -/

/-- Declared column type (`conf.get("type")`); `untyped` models a column
configured without a recognised type, for which `validate_table` performs no
coercion. -/
inductive ColType
  | string | float | integer | date | untyped
deriving DecidableEq, Repr

/-- A constraint directive of a column's ordered rule list.  `pattern`
carries the predicate `s ↦ bool(re.match(p, s))` for its configured regex;
directives not recognised by the `elif` chain of `rules.py` are no-ops
exactly like `nullable` and are represented by it. -/
inductive Rule
  | not_null | nullable | positive | non_negative
  | unique | unique_trimmed | iso_date
  | pattern (p : String → Bool)
  | in_range (lo hi : ℚ)
  | referential (t c : String)
  | matchCompany (t : String)
  | uppercase_trim

/-- One column's configuration: `{type: ..., rules: [...]}`. -/
structure ColConf where
  type : ColType
  rules : List Rule

/-- A table's schema: ordered mapping column name → configuration. -/
abbrev Schema := List (String × ColConf)

def Rule.isUpperTrim : Rule → Bool
  | .uppercase_trim => true
  | _ => false

/-- `"uppercase_trim" in col_rules`. -/
def hasUpperTrim (rs : List Rule) : Bool := rs.any Rule.isUpperTrim

/-- The rules whose outcome depends on more than the cell value itself:
uniqueness (the running tracker) and the referential checks (the `refs`
argument); re-validation of a valid partition strips them. -/
def ruleStateful : Rule → Bool
  | .unique => true
  | .unique_trimmed => true
  | .referential _ _ => true
  | .matchCompany _ => true
  | _ => false

def stripRules (rs : List Rule) : List Rule := rs.filter (fun r => !ruleStateful r)

def stripConf (c : ColConf) : ColConf := ⟨c.type, stripRules c.rules⟩

def stripSchema (s : Schema) : Schema := s.map (fun p => (p.1, stripConf p.2))

/-! ### Referential lookup sets -/

/-- `refs[t]` (first binding wins, as for a Python dict with unique keys). -/
def lookupTable (refs : List (String × List Row)) (t : String) : Option (List Row) :=
  (refs.find? (fun p => p.1 == t)).map (·.2)

/-- `set(refs[t][c].astype(str).str.strip().str.upper())` as a list whose
membership is the set membership. -/
def refColVals (env : PyEnv) (df : List Row) (c : String) : List String :=
  df.map (fun r => pyUpper (pyStrip (pyStr env (rowGet r c))))

/-- The `ref_lookup` dict of `validate_table`: for a column, the lookup set
of the last `referential:` rule whose referenced table is present in `refs`
(`if refs:` — an absent or empty dict builds nothing). -/
def buildRefLookup (env : PyEnv) (schema : Schema) (refs : List (String × List Row)) :
    String → Option (List String) := fun col =>
  if refs.isEmpty then none
  else
    match schema.find? (fun p => p.1 == col) with
    | none => none
    | some pc =>
      (pc.2.rules.filterMap (fun r =>
        match r with
        | .referential t c => (lookupTable refs t).map (fun df => refColVals env df c)
        | _ => none)).getLast?

/-! ### Rule application (the `for rule in col_rules` loop) -/

/-- Result of applying one rule to one cell: pass (with the column's
uniqueness tracker possibly extended), fail (break out of the rule list,
row invalid), or an uncaught Python exception. -/
inductive RRes
  | pass (tr : List Value)
  | fail
  | crash

/-- One iteration of the `elif` chain of `rules.py` (lines 106–184): `val`
is the coerced cell, `tr` the running per-column uniqueness set, `rlk` the
`ref_lookup` dict and `row` the original (uncoerced) row, which
`match_company_for_ticker` consults directly. -/
def applyRule (env : PyEnv) (rlk : String → Option (List String))
    (refs : List (String × List Row)) (row : Row) (col : String)
    (val : Value) (tr : List Value) : Rule → RRes
  | .not_null => if pyNotna val then .pass tr else .fail
  | .nullable => .pass tr
  | .positive =>
      if pyNotna val then
        match pyFloat env val with
        | some q => if q ≤ 0 then .fail else .pass tr
        | none => .crash
      else .pass tr
  | .non_negative =>
      if pyNotna val then
        match pyFloat env val with
        | some q => if q < 0 then .fail else .pass tr
        | none => .crash
      else .pass tr
  | .unique =>
      if !pyNotna val then .fail
      else if tr.any (fun w => pyEq w val) then .fail
      else .pass (val :: tr)
  | .unique_trimmed =>
      if !pyNotna val then .fail
      else
        let cv := pyStrip (pyStr env val)
        if tr.any (fun w => pyEq w (.str cv)) then .fail
        else .pass (.str cv :: tr)
  | .iso_date =>
      if pyNotna val then
        match pyToDT env val with
        | some _ => .pass tr
        | none => .fail
      else .pass tr
  | .pattern p =>
      if pyNotna val && !p (pyStr env val) then .fail else .pass tr
  | .in_range lo hi =>
      if pyNotna val then
        match pyFloat env val with
        | some q => if lo ≤ q && q ≤ hi then .pass tr else .fail
        | none => .crash
      else .pass tr
  | .referential _ _ =>
      match rlk col with
      | none => .pass tr
      | some lset =>
        if pyNotna val then
          if lset.contains (pyUpper (pyStrip (pyStr env val))) then .pass tr else .fail
        else .fail
  | .matchCompany t =>
      if refs.isEmpty then .pass tr
      else
        match lookupTable refs t with
        | none => .pass tr
        | some df =>
          let tickerVal := pyUpper (pyStrip (pyStr env (rowGetD row "ticker" (.str ""))))
          let companyVal := pyStrip (pyStr env (rowGetD row "company" (.str "")))
          match (df.reverse.find? (fun r =>
              pyUpper (pyStrip (pyStr env (rowGet r "ticker"))) == tickerVal)).map
              (fun r => rowGet r "company") with
          | none => .pass tr
          | some ev =>
            if pyTruthy ev then
              match ev with
              | .str es =>
                if pyLower companyVal == pyLower (pyStrip es) then .pass tr else .fail
              | _ => .crash
            else .pass tr
  | .uppercase_trim => .pass tr

/-- The rule loop: a failing rule breaks out (remaining rules of this column
are not evaluated, the tracker keeps the additions of the passed prefix);
an exception propagates. -/
def applyRules (env : PyEnv) (rlk : String → Option (List String))
    (refs : List (String × List Row)) (row : Row) (col : String) (val : Value) :
    List Rule → List Value → Except Unit (Bool × List Value)
  | [], tr => .ok (true, tr)
  | r :: rs, tr =>
    match applyRule env rlk refs row col val tr r with
    | .pass tr' => applyRules env rlk refs row col val rs tr'
    | .fail => .ok (false, tr)
    | .crash => .error ()

/-! ### Per-column processing (the `for col, conf in rules.items()` body) -/

/-- The per-column uniqueness trackers (`unique_trackers`): every column not
yet written reads as the empty set, matching both the pre-registration of
`unique` columns and the `setdefault` of `unique_trimmed`. -/
abbrev Trackers := String → List Value

def updTr (trs : Trackers) (col : String) (l : List Value) : Trackers :=
  fun c => if c = col then l else trs c

/-- Outcome of one column on one row: continue to the next column (carrying
whether this column kept the row valid), break out of the column loop with
the row invalid (only integer coercion does this), or an uncaught
exception. -/
inductive CStep
  | next (rc : Row) (trs : Trackers) (ok : Bool)
  | brk (rc : Row) (trs : Trackers)
  | crash

/-- Run the rule list of a column after coercion. -/
def runRules (env : PyEnv) (rlk : String → Option (List String))
    (refs : List (String × List Row)) (row : Row) (col : String) (val : Value)
    (rules : List Rule) (rc : Row) (trs : Trackers) : CStep :=
  match applyRules env rlk refs row col val rules (trs col) with
  | .ok p => .next rc (updTr trs col p.2) p.1
  | .error _ => .crash

/-- The body of the column loop of `validate_table` (lines 52–184):
`uppercase_trim` normalisation, type coercion, then the rule list.  A
float/date coercion failure is caught (`except: valid=False; continue`),
skipping this column's rules but not the later columns; an integer coercion
failure executes `break`, abandoning the remaining columns of the row; a
successful integer coercion executes `continue`, skipping this column's
rule list entirely. -/
def processCol (env : PyEnv) (rlk : String → Option (List String))
    (refs : List (String × List Row)) (row : Row) (col : String) (conf : ColConf)
    (rc : Row) (trs : Trackers) : CStep :=
  let val0 := rowGet row col
  let p1 : Row × Value :=
    if hasUpperTrim conf.rules && pyNotna val0 then
      let s := pyUpper (pyStrip (pyStr env val0))
      (rowSet rc col (.str s), .str s)
    else (rc, val0)
  let rc1 := p1.1
  let val1 := p1.2
  if pyNotna val1 then
    match conf.type with
    | .string =>
        let s := pyStr env val1
        runRules env rlk refs row col (.str s) conf.rules (rowSet rc1 col (.str s)) trs
    | .float =>
        match pyFloat env val1 with
        | some q => runRules env rlk refs row col (.floatV q) conf.rules (rowSet rc1 col (.floatV q)) trs
        | none => .next rc1 trs false
    | .integer =>
        match val1 with
        | .intV n => .next (rowSet rc1 col (.intV n)) trs true
        | .floatV q =>
            if q.den = 1 then .next (rowSet rc1 col (.intV q.num)) trs true
            else .brk rc1 trs
        | .str s =>
            match intFullParse (pyStrip s) with
            | some n => .next (rowSet rc1 col (.intV n)) trs true
            | none => .brk rc1 trs
        | _ => .brk rc1 trs
    | .date =>
        match pyToDT env val1 with
        | some d => runRules env rlk refs row col (.dateV d) conf.rules (rowSet rc1 col (.dateV d)) trs
        | none => .next rc1 trs false
    | .untyped => runRules env rlk refs row col val1 conf.rules rc1 trs
  else
    runRules env rlk refs row col val1 conf.rules rc1 trs

/-- The column loop over one row; `v` is the running `valid` flag. -/
def processCols (env : PyEnv) (rlk : String → Option (List String))
    (refs : List (String × List Row)) (row : Row) :
    Schema → Row → Trackers → Bool → Except Unit (Row × Trackers × Bool)
  | [], rc, trs, v => .ok (rc, trs, v)
  | cc :: rest, rc, trs, v =>
    match processCol env rlk refs row cc.1 cc.2 rc trs with
    | .next rc' trs' ok => processCols env rlk refs row rest rc' trs' (v && ok)
    | .brk rc' trs' => .ok (rc', trs', false)
    | .crash => .error ()

/-- The row loop of `validate_table`: the uniqueness trackers thread through
all rows; each row's coerced copy is appended to the valid or the invalid
partition. -/
def valGo (env : PyEnv) (rlk : String → Option (List String))
    (refs : List (String × List Row)) (schema : Schema) :
    List Row → Trackers → Except Unit (List Row × List Row)
  | [], _ => .ok ([], [])
  | r :: rs, trs => do
    let (rcF, trsF, v) ← processCols env rlk refs r schema r trs true
    let (vd, inv) ← valGo env rlk refs schema rs trsF
    if v then pure (rcF :: vd, inv) else pure (vd, rcF :: inv)

/-- `validate_table(df, table_name, refs)` with the table's schema already
looked up in the configuration (`tables_config[table_name]`); `refs = []`
models both an absent and an empty `refs` argument (`if refs:`).  Returns
the valid and invalid partitions, or `Except.error` for an uncaught
exception. -/
def validate (env : PyEnv) (schema : Schema) (refs : List (String × List Row))
    (df : List Row) : Except Unit (List Row × List Row) :=
  valGo env (buildRefLookup env schema refs) refs schema df (fun _ => [])

/-! ### The merge orchestrator (`merge.py`)

File-system interaction is abstracted into per-stage environments: the
directory walks yield lists of period-keyed read outcomes (`none` = the
read raised and was logged/skipped), live-mode reads yield
`Option (Option df)` (file present? → parse succeeded?), and the external
warehouse loader's success is a flag.  Everything downstream of the reads —
range filtering, concatenation, validation, entity-key deduplication, and
each stage's error policy — is embedded concretely. -/

/-- A `year/month/day` period directory. -/
structure Ymd where
  y : ℤ
  m : ℤ
  d : ℤ
deriving DecidableEq, Repr

/-- Lexicographic date comparison (`start_date <= current_date <= end_date`). -/
def ymdLe (a b : Ymd) : Bool :=
  a.y < b.y || (a.y = b.y && (a.m < b.m || (a.m = b.m && a.d ≤ b.d)))

/-- The year/month/day `continue` chain of the `stocks_raw` walk
(lines 61, 72–74, 85 of `merge.py`). -/
def stocksChain (sd ed p : Ymd) : Bool :=
  if p.y < sd.y || p.y > ed.y then false
  else if (p.y = sd.y && p.m < sd.m) || (p.y = ed.y && p.m > ed.m) then false
  else ymdLe sd p && ymdLe p ed

/-- `drop_duplicates(subset=key, keep='last')`: keep a row only if no later
row shares its key; kept rows stay in their original order. -/
def dedupLast {κ : Type} [DecidableEq κ] (key : Row → κ) : List Row → List Row
  | [] => []
  | r :: rs => if rs.any (fun r' => key r' = key r) then dedupLast key rs
               else r :: dedupLast key rs

/-- Environment of the `stocks_raw` stage. -/
structure StocksEnv where
  history : Bool
  startD : Ymd
  endD : Ymd
  dirExists : Bool
  /-- Day directories holding a `stocks.csv`, with the read outcome. -/
  walk : List (Ymd × Option (List Row))
  /-- Live mode: `none` = no file for today, `some none` = read raised. -/
  liveFile : Option (Option (List Row))
  loadOk : Bool

/-- Locating and concatenating the raw `stocks_raw` data (`merge.py`
lines 41–118): returns `none` where the code returns `None` before
validation. -/
def stocksAcquire (env : StocksEnv) : Option (List Row) :=
  if env.history then
    if !env.dirExists then none
    else
      let files := (env.walk.filter (fun e => stocksChain env.startD env.endD e.1)).filterMap (·.2)
      if files.isEmpty then none else some files.flatten
  else
    match env.liveFile with
    | none => none
    | some none => none
    | some (some df) => some df

/-- Validation, dedup on `(ticker, date)` and warehouse load of the base
table (`merge.py` lines 120–147): zero valid rows and a load failure both
return `None`. -/
def stocksFinish (penv : PyEnv) (schema : Schema) (loadOk : Bool)
    (merged : List Row) : Except Unit (Option (List Row)) := do
  let vi ← validate penv schema [] merged
  let vd := dedupLast (fun r => (rowGet r "ticker", rowGet r "date")) vi.1
  if vd.length > 0 then
    if loadOk then pure (some vd) else pure none
  else pure none

/-- The `stocks_raw` base-table stage. -/
def stocks_raw (penv : PyEnv) (schema : Schema) (env : StocksEnv) :
    Except Unit (Option (List Row)) :=
  match stocksAcquire env with
  | none => pure none
  | some merged => stocksFinish penv schema env.loadOk merged

/-- Environment of the `company_metadata` stage.  The live-mode read with
its column selection and revenue/employees cleanup sits in one
`try/except: return None` block and is abstracted as its outcome. -/
structure CompanyEnv where
  history : Bool
  sy : ℤ
  ey : ℤ
  dirExists : Bool
  /-- Year directories holding a `company_details.csv`, with read outcome. -/
  yearFiles : List (ℤ × Option (List Row))
  liveResult : Option (List Row)
  loadOk : Bool

def companyAcquire (env : CompanyEnv) : Option (List Row) :=
  if env.history then
    if !env.dirExists then none
    else
      let files := (env.yearFiles.filter (fun e => !(e.1 < env.sy || e.1 > env.ey))).filterMap (·.2)
      if files.isEmpty then none else some files.flatten
  else env.liveResult

/-- The `company_metadata` dependent stage (`merge.py` lines 149–249):
validated against `refs`, deduped on `rank`; zero valid rows and a load
failure both return `None`. -/
def company_metadata (penv : PyEnv) (schema : Schema) (env : CompanyEnv)
    (refs : List (String × List Row)) : Except Unit (Option (List Row)) :=
  match companyAcquire env with
  | none => pure none
  | some merged => do
    let vi ← validate penv schema refs merged
    let vd := dedupLast (fun r => rowGet r "rank") vi.1
    if vd.length > 0 then
      if env.loadOk then pure (some vd) else pure none
    else pure none

/-- Environment of the `exchange_rates` stage (`<year>.csv` files in one
directory). -/
structure ExchEnv where
  history : Bool
  sy : ℤ
  ey : ℤ
  dirExists : Bool
  csvFiles : List (ℤ × Option (List Row))
  liveFile : Option (Option (List Row))
  loadOk : Bool

def exchAcquire (env : ExchEnv) : Option (List Row) :=
  if env.history then
    if !env.dirExists then none
    else
      let files := (env.csvFiles.filter (fun e => !(e.1 < env.sy || e.1 > env.ey))).filterMap (·.2)
      if files.isEmpty then none else some files.flatten
  else
    match env.liveFile with
    | none => none
    | some none => none
    | some (some df) => some df

/-- The `exchange_rates` independent stage (`merge.py` lines 251–330):
deduped on `date`; a warehouse-load failure is only logged and the valid
partition is returned regardless (even when empty). -/
def exchange_rates (penv : PyEnv) (schema : Schema) (env : ExchEnv) :
    Except Unit (Option (List Row)) :=
  match exchAcquire env with
  | none => pure none
  | some merged => do
    let vi ← validate penv schema [] merged
    pure (some (dedupLast (fun r => rowGet r "date") vi.1))

/-- Environment of the `macro_raw` stage.  The acquisition phase (year-file
walk, quarter relabelling and quarter-range filtering, lines 337–449) ends
in `return None` on every bail-out and is abstracted as its outcome. -/
structure MacroEnv where
  acquired : Option (List Row)
  loadOk : Bool

/-- The `macro_raw` independent stage (`merge.py` lines 332–474): deduped on
`quarter`; a warehouse-load failure is only logged and the valid partition
is returned regardless. -/
def macro_raw (penv : PyEnv) (schema : Schema) (env : MacroEnv) :
    Except Unit (Option (List Row)) :=
  match env.acquired with
  | none => pure none
  | some merged => do
    let vi ← validate penv schema [] merged
    pure (some (dedupLast (fun r => rowGet r "quarter") vi.1))

/-- Environment of the `sentiment` stage (live-mode only). -/
structure SentEnv where
  history : Bool
  liveFile : Option (Option (List Row))
  loadOk : Bool

/-- The `sentiment` stage (`merge.py` lines 476–523): historical mode is a
warning and `None`; validated against `refs`, deduped on `(ticker, date)`;
a warehouse-load failure is only logged. -/
def sentimentStage (penv : PyEnv) (schema : Schema) (env : SentEnv)
    (refs : List (String × List Row)) : Except Unit (Option (List Row)) :=
  if env.history then pure none
  else
    match env.liveFile with
    | none => pure none
    | some none => pure none
    | some (some df) => do
      let vi ← validate penv schema refs df
      pure (some (dedupLast (fun r => (rowGet r "ticker", rowGet r "date")) vi.1))

/-- The stages `merge` runs after the base table. -/
inductive Stage
  | companyMetadata | exchangeRates | macroRaw | sentimentData | kpiStage
deriving DecidableEq, Repr

def allStages : List Stage :=
  [.companyMetadata, .exchangeRates, .macroRaw, .sentimentData, .kpiStage]

/-- The `refs` dict after the `company_metadata` stage (`merge.py`
lines 548, 559–560). -/
def refsAfterCm (sdf : List Row) (cm : Option (List Row)) : List (String × List Row) :=
  match cm with
  | some df => [("stocks_raw", sdf), ("company_metadata", df)]
  | none => [("stocks_raw", sdf)]

/-- Everything `merge` needs: the runtime, the per-table schemas of
`config.json`, the per-stage environments, and the outcome of the KPI
computation (whose exceptions `merge` catches and logs). -/
structure MergeEnv where
  penv : PyEnv
  stocksSchema : Schema
  cmSchema : Schema
  erSchema : Schema
  macroSchema : Schema
  sentSchema : Schema
  stocksEnv : StocksEnv
  cmEnv : CompanyEnv
  erEnv : ExchEnv
  macroEnv : MacroEnv
  sentEnv : SentEnv
  kpiRun : Except Unit (Option Unit)
  factLoadOk : Bool

/-- `merge(history, start_date, end_date)` (`merge.py` lines 525–624):
processes the base table first and terminates the pipeline (returning
`None` and running no further stage) unless it yields a non-empty valid
partition; every later stage runs unconditionally in order, its `None`
result only logged; KPI failures are caught.  Returns the run's result
(`some ()` for the returned `exec_dir`) together with the list of stages
that were executed. -/
def merge (m : MergeEnv) : Except Unit (Option Unit × List Stage) := do
  let sdf? ← stocks_raw m.penv m.stocksSchema m.stocksEnv
  match sdf? with
  | none => pure (none, [])
  | some sdf =>
    if sdf.length = 0 then pure (none, [])
    else do
      let cm ← company_metadata m.penv m.cmSchema m.cmEnv [("stocks_raw", sdf)]
      let _er ← exchange_rates m.penv m.erSchema m.erEnv
      let _mr ← macro_raw m.penv m.macroSchema m.macroEnv
      let _se ← sentimentStage m.penv m.sentSchema m.sentEnv (refsAfterCm sdf cm)
      let _kpi : Option Unit := match m.kpiRun with | .ok r => r | .error _ => none
      pure (some (), allStages)

/-! ### The KPI engine (`transform.py`) -/

/-- State update for `groupby('ticker')['close'].shift(1)`: remember the
last close seen for a ticker. -/
def updLast (m : String → Option ℚ) (t : String) (c : ℚ) : String → Option ℚ :=
  fun t' => if t' = t then some c else m t'

/-- `np.where(prev.notna() & (prev != 0), (close - prev)/prev*100, 0)`
(`transform.py` lines 82–91); total on `ℚ`, so the subsequent
inf/NaN-to-zero replacement steps are identities. -/
def dailyReturn (prev : Option ℚ) (close : ℚ) : ℚ :=
  match prev with
  | some p => if p ≠ 0 then (close - p) / p * 100 else 0
  | none => 0

/-- The `daily_return` column over `(ticker, close)` rows already sorted by
`(ticker, date)`: each row's previous close is the last close of the same
ticker among the earlier rows (the fused form of the `shift(1)` column
followed by the `np.where`). -/
def dailyReturnsGo (m : String → Option ℚ) : List (String × ℚ) → List ℚ
  | [] => []
  | tc :: rest => dailyReturn (m tc.1) tc.2 :: dailyReturnsGo (updLast m tc.1 tc.2) rest

def dailyReturns (rows : List (String × ℚ)) : List ℚ :=
  dailyReturnsGo (fun _ => none) rows

/-- The fields of an `analytics_summary` row that its sector ranking reads. -/
structure ARow where
  sector : String
  year : ℤ
  quarter : ℤ
  avgReturn : ℚ
deriving DecidableEq, Repr

def sameGroup (a b : ARow) : Prop :=
  a.sector = b.sector ∧ a.year = b.year ∧ a.quarter = b.quarter

instance (a b : ARow) : Decidable (sameGroup a b) := by unfold sameGroup; infer_instance

/-- `groupby(['sector_name','year','quarter'])['avg_return']
.rank(ascending=False, method='dense')` for one row: one plus the number of
distinct mean returns of its group that strictly exceed its own
(`transform.py` line 309). -/
def rankOf (rows : List ARow) (r : ARow) : ℚ :=
  1 + ((((rows.filter (fun x => decide (sameGroup x r))).map ARow.avgReturn).toFinset.filter
      (fun w => r.avgReturn < w)).card : ℚ)

/-- The `sector_rank` column. -/
def sectorRank (rows : List ARow) : List ℚ := rows.map (rankOf rows)

/-- `macro_df['quarter'].str[-1].astype(int)` on one label. -/
def qtrOfLabel (l : String) : Option ℤ :=
  match l.data.getLast? with
  | some c => pyInt ⟨[c]⟩
  | none => none

/-- `macro_df['quarter'].str[:4].astype(int)` on one label. -/
def yearOfLabel (l : String) : Option ℤ := pyInt ⟨l.data.take 4⟩

/-- A whole-column `astype` conversion: succeeds only if every cell does
(one bad cell raises for the whole column). -/
def optionMapAll {α β : Type} (f : α → Option β) : List α → Option (List β)
  | [] => some []
  | a :: l =>
    match f a, optionMapAll f l with
    | some b, some bs => some (b :: bs)
    | _, _ => none

/-- The year/quarter derivation of the macro_facts stage (`transform.py`
lines 151–159): the label format is decided globally — if any label
contains `'-'`, every label is parsed as `YYYY-QX`; otherwise every label
is a bare `QX` dated to `ip_yr`.  `none` models the `astype(int)` raising
(caught by the stage's `except`, which returns `None`). -/
def macroYearQtr (labels : List String) (ipYr : ℤ) : Option (List (ℤ × ℤ)) :=
  if labels.any (fun l => l.data.contains '-') then
    optionMapAll (fun l => do
      let y ← yearOfLabel l
      let q ← qtrOfLabel l
      pure (y, q)) labels
  else
    optionMapAll (fun l => do
      let q ← qtrOfLabel l
      pure (ipYr, q)) labels

/-- The stage skeleton of `calculate_all_kpis(exec_dir, start_date)`
(`transform.py` lines 14–362): missing or empty mandatory inputs return
`None`; each stage body sits in a `try/except` that returns `None` on
failure.  The dataframe-heavy stock_facts/sector/analytics computations are
abstracted as their success flags (their kernels are `dailyReturns` and
`sectorRank` above); the macro quarter parsing, which decides claim-level
control flow, is concrete. -/
def calculateAllKpis (inputsPresent framesNonempty stockStageOk : Bool)
    (labels : List String) (ipYr : ℤ) (laterStagesOk : Bool) :
    Option (List (ℤ × ℤ)) :=
  if !inputsPresent then none
  else if !framesNonempty then none
  else if !stockStageOk then none
  else
    match macroYearQtr labels ipYr with
    | none => none
    | some yq => if laterStagesOk then some yq else none

/-! ### Concrete instances used by counterexamples and witnesses -/

instance {ε α : Type} [DecidableEq ε] [DecidableEq α] : DecidableEq (Except ε α) := fun a b =>
  match a, b with
  | .ok x, .ok y =>
    if h : x = y then isTrue (by rw [h]) else isFalse (fun hh => by cases hh; exact h rfl)
  | .error x, .error y =>
    if h : x = y then isTrue (by rw [h]) else isFalse (fun hh => by cases hh; exact h rfl)
  | .ok _, .error _ => isFalse (fun hh => by cases hh)
  | .error _, .ok _ => isFalse (fun hh => by cases hh)

/-- A concrete runtime instance (its parsing/formatting fields are never
consulted on the concrete inputs below). -/
def env0 : PyEnv where
  parseFloat _ := none
  showFloat _ := ""
  showInt _ := ""
  parseDate _ := none
  showDate _ := ""
  dtNum _ := none
  reMatch _ _ := false

/-- The Python float `12.5`, built reduced so that kernel evaluation works. -/
def q12p5 : ℚ := Rat.mk' 25 2 (by norm_num) (by norm_num)

/-- A one-column schema of type integer (no further rules). -/
def intSchema : Schema := [("v", ⟨ColType.integer, []⟩)]

/-- A one-column schema with a `unique` rule. -/
def uniqSchema : Schema := [("u", ⟨ColType.string, [Rule.unique]⟩)]

/-- A unique column followed by a `positive`-constrained float column. -/
def c9Schema : Schema :=
  [("u", ⟨ColType.string, [Rule.unique]⟩), ("p", ⟨ColType.float, [Rule.positive]⟩)]

/-- An integer column followed by a unique column. -/
def c4Schema : Schema :=
  [("a", ⟨ColType.integer, []⟩), ("b", ⟨ColType.string, [Rule.unique]⟩)]

/-- An integer column carrying a range constraint. -/
def c3Schema : Schema := [("v", ⟨ColType.integer, [Rule.in_range 0 10]⟩)]

def row0 : Row := [("ticker", Value.str "A"), ("date", Value.str "D")]

def stocksEnvFail : StocksEnv :=
  ⟨true, ⟨2024, 1, 1⟩, ⟨2024, 12, 31⟩, false, [], none, true⟩

def stocksEnvOk : StocksEnv :=
  ⟨false, ⟨2024, 1, 1⟩, ⟨2024, 12, 31⟩, true, [], some (some [row0]), true⟩

def stocksEnvLoadFail : StocksEnv :=
  ⟨false, ⟨2024, 1, 1⟩, ⟨2024, 12, 31⟩, true, [], some (some [row0]), false⟩

def cmEnv0 : CompanyEnv := ⟨false, 2024, 2024, false, [], none, true⟩
def erEnv0 : ExchEnv := ⟨false, 2024, 2024, false, [], none, true⟩
def macroEnv0 : MacroEnv := ⟨none, true⟩
def sentEnv0 : SentEnv := ⟨false, none, true⟩

def mergeEnvFail : MergeEnv :=
  ⟨env0, [], [], [], [], [], stocksEnvFail, cmEnv0, erEnv0, macroEnv0, sentEnv0, .ok none, true⟩

def mergeEnvOk : MergeEnv :=
  ⟨env0, [], [], [], [], [], stocksEnvOk, cmEnv0, erEnv0, macroEnv0, sentEnv0, .error (), true⟩

def erEnvLF : ExchEnv := ⟨false, 2024, 2024, true, [], some (some [row0]), false⟩
def macroEnvLF : MacroEnv := ⟨some [row0], false⟩
def sentEnvLF : SentEnv := ⟨false, some (some [row0]), false⟩
def cmEnvLF : CompanyEnv := ⟨false, 2024, 2024, false, [], some [row0], false⟩

/-! ### Claim C5 — integer coercion -/

/-- C5: for a column of type integer, the string `"12"` coerces to the
integer 12 and the row stays valid; `"12.5"` invalidates the row; the float
`12.0` coerces to 12 and stays valid; the float `12.5` invalidates — in
general a numeric value is accepted exactly when it has no fractional part
(`q.den = 1`) and a string exactly when its stripped form fully matches the
integer pattern. -/
theorem C5_integer_coercion :
    ((25 : ℚ)/2 = q12p5)
  ∧ (validate env0 intSchema [] [[("v", Value.str "12")]] = .ok ([[("v", Value.intV 12)]], []))
  ∧ (validate env0 intSchema [] [[("v", Value.str "12.5")]] = .ok ([], [[("v", Value.str "12.5")]]))
  ∧ (validate env0 intSchema [] [[("v", Value.floatV 12)]] = .ok ([[("v", Value.intV 12)]], []))
  ∧ (validate env0 intSchema [] [[("v", Value.floatV q12p5)]] = .ok ([], [[("v", Value.floatV q12p5)]]))
  ∧ (∀ (env : PyEnv) (q : ℚ), validate env intSchema [] [[("v", Value.floatV q)]] =
      if q.den = 1 then .ok ([[("v", Value.intV q.num)]], []) else .ok ([], [[("v", Value.floatV q)]]))
  ∧ (∀ (env : PyEnv) (s : String), validate env intSchema [] [[("v", Value.str s)]] =
      match intFullParse (pyStrip s) with
      | some n => .ok ([[("v", Value.intV n)]], [])
      | none => .ok ([], [[("v", Value.str s)]])) := by
  refine ⟨?_, by decide, by decide, by decide, by decide, ?_, ?_⟩
  · rw [show (25:ℚ) = ((25:ℤ):ℚ) by norm_num, show (2:ℚ) = ((2:ℕ):ℚ) by norm_num]
    exact Rat.num_div_den q12p5
  · intro env q
    by_cases h : q.den = 1 <;>
      simp [validate, valGo, processCols, processCol, rowGet, rowSet, hasUpperTrim,
        pyNotna, intSchema, buildRefLookup, h, Bind.bind, Except.bind, Pure.pure, Except.pure]
  · intro env s
    rcases h : intFullParse (pyStrip s) with _ | n <;>
      simp [validate, valGo, processCols, processCol, rowGet, rowSet, hasUpperTrim,
        pyNotna, intSchema, buildRefLookup, h, Bind.bind, Except.bind, Pure.pure, Except.pure]

/-! ### Claim C6 — uniqueness ordering -/

/-- C6: with two rows `[A, B]` sharing the value of a column carrying a
`unique` rule, processed in input order, the first occurrence `A` survives
as valid and the duplicate `B` is routed to the invalid partition; a null
value in a unique column is an automatic failure. -/
theorem C6_unique_first_survives :
    (∀ (env : PyEnv) (s : String),
      validate env uniqSchema [] [[("u", Value.str s)], [("u", Value.str s)]] =
        .ok ([[("u", Value.str s)]], [[("u", Value.str s)]]))
  ∧ (∀ env : PyEnv, validate env uniqSchema [] [[("u", Value.null)]] =
      .ok ([], [[("u", Value.null)]])) := by
  constructor
  · intro env s
    simp [validate, valGo, processCols, processCol, runRules, applyRules, applyRule,
      rowGet, rowSet, hasUpperTrim, Rule.isUpperTrim, pyNotna, pyStr, pyEq, uniqSchema,
      buildRefLookup, updTr, Bind.bind, Except.bind, Pure.pure, Except.pure]
  · intro env
    simp [validate, valGo, processCols, processCol, runRules, applyRules, applyRule,
      rowGet, rowSet, hasUpperTrim, Rule.isUpperTrim, pyNotna, pyStr, pyEq, uniqSchema,
      buildRefLookup, updTr, Bind.bind, Except.bind, Pure.pure, Except.pure]

/-! ### Claim C9 — uniqueness is consumed by later-invalidated rows -/

/-- C9: a row that passes the `unique` check on column `u` but is afterwards
invalidated by a rule on another column (`positive` on `p`, with `q ≤ 0`)
still registers its `u` value: a later row with the same `u` value fails the
unique check and lands in the invalid partition, so no row with that value
is valid at all. -/
theorem C9_tracker_consumed (env : PyEnv) (s : String) (q q2 : ℚ)
    (h : q ≤ 0) (h2 : 0 < q2) :
    validate env c9Schema []
        [[("u", Value.str s), ("p", Value.floatV q)],
         [("u", Value.str s), ("p", Value.floatV q2)]] =
      .ok ([], [[("u", Value.str s), ("p", Value.floatV q)],
                [("u", Value.str s), ("p", Value.floatV q2)]]) := by
  simp [validate, valGo, processCols, processCol, runRules, applyRules, applyRule,
    rowGet, rowSet, hasUpperTrim, Rule.isUpperTrim, pyNotna, pyStr, pyEq, pyFloat, c9Schema,
    buildRefLookup, updTr, h, not_lt.mpr h, not_le.mpr h2,
    Bind.bind, Except.bind, Pure.pure, Except.pure]

/-- Witness for C9 at a concrete input. -/
theorem C9_tracker_consumed_witness :
    (-1 : ℚ) ≤ 0 ∧ (0 : ℚ) < 1 ∧
    validate env0 c9Schema []
        [[("u", Value.str "K"), ("p", Value.floatV (-1))],
         [("u", Value.str "K"), ("p", Value.floatV 1)]] =
      .ok ([], [[("u", Value.str "K"), ("p", Value.floatV (-1))],
                [("u", Value.str "K"), ("p", Value.floatV 1)]]) :=
  ⟨by norm_num, by norm_num,
    C9_tracker_consumed env0 "K" (-1) 1 (by norm_num) (by norm_num)⟩

/-! ### Claim C7 — daily return -/

/-- C7: `daily_return` is `10` for prior close `100` and current close
`110`; `0` when there is no prior close (in particular on the first row of a
ticker, located anywhere in the sorted frame) and when the prior close is
`0`; and it is defined (a finite rational) for every row. -/
theorem C7_daily_return :
    (dailyReturn (some 100) 110 = 10)
  ∧ (∀ c : ℚ, dailyReturn none c = 0)
  ∧ (∀ c : ℚ, dailyReturn (some 0) c = 0)
  ∧ (∀ rows : List (String × ℚ), (dailyReturns rows).length = rows.length)
  ∧ (∀ (done : List (String × ℚ)) (t : String) (c : ℚ) (rest : List (String × ℚ)),
      (∀ x ∈ done, x.1 ≠ t) →
      (dailyReturns (done ++ (t, c) :: rest))[done.length]? = some 0) := by
  have hlen : ∀ (m : String → Option ℚ) (rows : List (String × ℚ)),
      (dailyReturnsGo m rows).length = rows.length := by
    intro m rows
    induction rows generalizing m with
    | nil => rfl
    | cons tc rest ih => simp [dailyReturnsGo, ih]
  have hfirst : ∀ (done : List (String × ℚ)) (m : String → Option ℚ) (t : String)
      (c : ℚ) (rest : List (String × ℚ)), m t = none → (∀ x ∈ done, x.1 ≠ t) →
      (dailyReturnsGo m (done ++ (t, c) :: rest))[done.length]? = some 0 := by
    intro done
    induction done with
    | nil =>
      intro m t c rest hm _
      simp [dailyReturnsGo, hm, dailyReturn]
    | cons x done' ih =>
      intro m t c rest hm hd
      have hx : x.1 ≠ t := hd x (by simp)
      have : (updLast m x.1 x.2) t = none := by
        have hne : ¬ t = x.1 := fun hh => hx hh.symm
        simp [updLast, hne, hm]
      simp only [List.cons_append, dailyReturnsGo, List.length_cons,
        List.getElem?_cons_succ]
      exact ih (updLast m x.1 x.2) t c rest this (fun y hy => hd y (by simp [hy]))
  refine ⟨by norm_num [dailyReturn], fun c => rfl, fun c => by simp [dailyReturn],
    fun rows => hlen _ rows, fun done t c rest hd => hfirst done _ t c rest rfl hd⟩

/-- Witness for C7 at a concrete input. -/
theorem C7_daily_return_witness :
    (∀ x ∈ [("A", (5 : ℚ))], x.1 ≠ "B") ∧
    (dailyReturns [("A", 5), ("B", 7)])[1]? = some 0 := by
  have h : ∀ x ∈ [("A", (5 : ℚ))], x.1 ≠ "B" := by decide
  exact ⟨h, C7_daily_return.2.2.2.2 [("A", 5)] "B" 7 [] h⟩

/-! ### Claim C8 — dense sector ranking -/

/-- C8: within a `(sector, year, quarter)` group, `sector_rank` is a dense
descending ranking of mean return: `[5, 5, 3]` ranks as `[1, 1, 2]`; rows of
the same group with equal mean returns share a rank; and the next distinct
lower value's rank is the previous rank plus one, not plus the tie count. -/
theorem C8_dense_rank :
    (sectorRank [⟨"S", 2024, 1, 5⟩, ⟨"S", 2024, 1, 5⟩, ⟨"S", 2024, 1, 3⟩] = [1, 1, 2])
  ∧ (∀ (rows : List ARow) (a b : ARow), a.sector = b.sector → a.year = b.year →
      a.quarter = b.quarter → a.avgReturn = b.avgReturn →
      rankOf rows a = rankOf rows b)
  ∧ (∀ (rows : List ARow) (a b : ARow), a ∈ rows → b ∈ rows → sameGroup a b →
      b.avgReturn < a.avgReturn →
      (∀ u ∈ rows, sameGroup u a →
        ¬(b.avgReturn < u.avgReturn ∧ u.avgReturn < a.avgReturn)) →
      rankOf rows b = rankOf rows a + 1) := by
  refine ⟨?_, ?_, ?_⟩
  · have e1 : rankOf [⟨"S", 2024, 1, 5⟩, ⟨"S", 2024, 1, 5⟩, ⟨"S", 2024, 1, 3⟩]
        ⟨"S", 2024, 1, 5⟩ = 1 := by
      unfold rankOf
      norm_num
      decide
    have e3 : rankOf [⟨"S", 2024, 1, 5⟩, ⟨"S", 2024, 1, 5⟩, ⟨"S", 2024, 1, 3⟩]
        ⟨"S", 2024, 1, 3⟩ = 2 := by
      unfold rankOf
      rw [show (2 : ℚ) = 1 + ((1 : ℕ) : ℚ) by norm_num]
      congr 1
    simp [sectorRank, e1, e3]
  · intro rows a b hs hy hq hr
    unfold rankOf
    rw [hr, List.filter_congr (fun x _ => ?_)]
    simp only [decide_eq_decide]
    unfold sameGroup
    rw [hs, hy, hq]
  · intro rows a b ha hb hg hlt hmid
    have hgg : ∀ x : ARow, sameGroup x b ↔ sameGroup x a := by
      intro x
      unfold sameGroup at hg ⊢
      rw [hg.1, hg.2.1, hg.2.2]
    have hfil : rows.filter (fun x => decide (sameGroup x b)) =
        rows.filter (fun x => decide (sameGroup x a)) := by
      refine List.filter_congr (fun x _ => ?_)
      simp only [decide_eq_decide]
      exact hgg x
    set G := ((rows.filter (fun x => decide (sameGroup x a))).map ARow.avgReturn).toFinset with hG
    have hmemG : ∀ w, w ∈ G ↔ ∃ u ∈ rows, sameGroup u a ∧ u.avgReturn = w := by
      intro w
      simp only [hG, List.mem_toFinset, List.mem_map, List.mem_filter, decide_eq_true_eq]
      constructor
      · rintro ⟨u, ⟨hu1, hu2⟩, hu3⟩
        exact ⟨u, hu1, hu2, hu3⟩
      · rintro ⟨u, hu1, hu2, hu3⟩
        exact ⟨u, ⟨hu1, hu2⟩, hu3⟩
    have haG : a.avgReturn ∈ G := by
      rw [hmemG]
      exact ⟨a, ha, ⟨rfl, rfl, rfl⟩, rfl⟩
    have hins : G.filter (fun w => b.avgReturn < w) =
        insert a.avgReturn (G.filter (fun w => a.avgReturn < w)) := by
      ext w
      simp only [Finset.mem_filter, Finset.mem_insert]
      constructor
      · rintro ⟨hwG, hwb⟩
        rcases lt_trichotomy w a.avgReturn with hlt' | heq | hgt
        · obtain ⟨u, hu1, hu2, hu3⟩ := (hmemG w).1 hwG
          exact absurd ⟨by rw [← hu3] at hwb; exact hu3 ▸ hwb, hu3 ▸ hlt'⟩ (hmid u hu1 hu2)
        · exact Or.inl heq
        · exact Or.inr ⟨hwG, hgt⟩
      · rintro (heq | ⟨hwG, hwa⟩)
        · exact ⟨heq ▸ haG, heq ▸ hlt⟩
        · exact ⟨hwG, lt_trans hlt hwa⟩
    have hnot : a.avgReturn ∉ G.filter (fun w => a.avgReturn < w) := by
      simp only [Finset.mem_filter]
      rintro ⟨_, hh⟩
      exact lt_irrefl _ hh
    unfold rankOf
    rw [hfil, ← hG, hins, Finset.card_insert_of_not_mem hnot]
    push_cast
    ring

/-- Witness for C8 at a concrete input. -/
theorem C8_dense_rank_witness :
    ((⟨"S", 2024, 1, 5⟩ : ARow).sector = (⟨"S", 2024, 1, 5⟩ : ARow).sector) ∧
    rankOf [⟨"S", 2024, 1, 5⟩, ⟨"S", 2024, 1, 5⟩, ⟨"S", 2024, 1, 3⟩] ⟨"S", 2024, 1, 5⟩ =
      rankOf [⟨"S", 2024, 1, 5⟩, ⟨"S", 2024, 1, 5⟩, ⟨"S", 2024, 1, 3⟩] ⟨"S", 2024, 1, 5⟩ :=
  ⟨rfl, C8_dense_rank.2.1 _ ⟨"S", 2024, 1, 5⟩ ⟨"S", 2024, 1, 5⟩ rfl rfl rfl rfl⟩

/-! ### Claim C10 — global quarter-label format decision -/

/-- A whole-column conversion fails whenever one cell fails. -/
theorem optionMapAll_none {α β : Type} (f : α → Option β) (l : List α) (x : α)
    (hx : x ∈ l) (hf : f x = none) : optionMapAll f l = none := by
  induction l with
  | nil => cases hx
  | cons a l ih =>
    rcases List.mem_cons.1 hx with h | h
    · subst h
      simp [optionMapAll, hf]
    · rcases ha : f a with _ | b <;> simp [optionMapAll, ha, ih h]

/-- C10: the macro quarter-label format is decided globally — one label
containing `'-'` switches every label to `YYYY-QX` parsing, so an input
mixing bare `Q1`-style labels (whose four-character prefix is not an
integer) with dashed labels makes the year extraction fail and the whole
KPI stage return `None`, rather than dating bare labels to the requested
year (which the all-bare branch would do). -/
theorem C10_macro_label_mixing :
    (macroYearQtr ["Q1", "Q2"] 2024 = some [(2024, 1), (2024, 2)])
  ∧ (macroYearQtr ["2023-Q4", "Q1"] 2024 = none)
  ∧ (∀ (labels : List String) (ipYr : ℤ) (l1 l2 : String), l1 ∈ labels → l2 ∈ labels →
      l1.data.contains '-' = true → yearOfLabel l2 = none →
      macroYearQtr labels ipYr = none)
  ∧ (∀ (ip fn ss lo : Bool) (labels : List String) (ipYr : ℤ) (l1 l2 : String),
      l1 ∈ labels → l2 ∈ labels →
      l1.data.contains '-' = true → yearOfLabel l2 = none →
      calculateAllKpis ip fn ss labels ipYr lo = none) := by
  have key : ∀ (labels : List String) (ipYr : ℤ) (l1 l2 : String), l1 ∈ labels →
      l2 ∈ labels → l1.data.contains '-' = true → yearOfLabel l2 = none →
      macroYearQtr labels ipYr = none := by
    intro labels ipYr l1 l2 h1 h2 hdash hyear
    have hany : labels.any (fun l => l.data.contains '-') = true :=
      List.any_eq_true.2 ⟨l1, h1, hdash⟩
    unfold macroYearQtr
    rw [if_pos hany]
    exact optionMapAll_none _ labels l2 h2 (by simp [hyear])
  refine ⟨by decide, by decide, key, ?_⟩
  intro ip fn ss lo labels ipYr l1 l2 h1 h2 hdash hyear
  cases ip <;> cases fn <;> cases ss <;>
    simp [calculateAllKpis, key labels ipYr l1 l2 h1 h2 hdash hyear]

/-- Witness for C10 at a concrete input. -/
theorem C10_macro_label_mixing_witness :
    "2023-Q4" ∈ ["2023-Q4", "Q1"] ∧ "Q1" ∈ (["2023-Q4", "Q1"] : List String) ∧
    "2023-Q4".data.contains '-' = true ∧ yearOfLabel "Q1" = none ∧
    calculateAllKpis true true true ["2023-Q4", "Q1"] 2024 true = none := by
  refine ⟨by decide, by decide, by decide, by decide, ?_⟩
  exact C10_macro_label_mixing.2.2.2 true true true true ["2023-Q4", "Q1"] 2024
    "2023-Q4" "Q1" (by decide) (by decide) (by decide) (by decide)

/-! ### Claim C1 — base-table failure is fatal, and only it -/

/-- C1: the base-table stage returns `None` when (in historical mode) the
source directory is absent, when no periodized files match the requested
range, or when validation yields zero valid rows; a `None` base stage makes
`merge` return `None` with no later stage executed; and whenever the base
stage succeeds, every dependent, independent, sentiment and KPI stage runs
and `merge` returns its execution directory regardless of those stages'
own failures — no other table's failure terminates the run. -/
theorem C1_base_table_fatal :
    (∀ (penv : PyEnv) (schema : Schema) (env : StocksEnv),
      env.history = true → env.dirExists = false →
      stocks_raw penv schema env = .ok none)
  ∧ (∀ (penv : PyEnv) (schema : Schema) (env : StocksEnv),
      env.history = true →
      (env.walk.filter (fun e => stocksChain env.startD env.endD e.1)).filterMap (·.2) = [] →
      stocks_raw penv schema env = .ok none)
  ∧ (∀ (penv : PyEnv) (schema : Schema) (env : StocksEnv) (merged : List Row)
      (inv : List Row),
      stocksAcquire env = some merged →
      validate penv schema [] merged = .ok ([], inv) →
      stocks_raw penv schema env = .ok none)
  ∧ (∀ m : MergeEnv,
      stocks_raw m.penv m.stocksSchema m.stocksEnv = .ok none →
      merge m = .ok (none, []))
  ∧ (∀ (m : MergeEnv) (vd : List Row) (cm er mr se : Option (List Row)),
      stocks_raw m.penv m.stocksSchema m.stocksEnv = .ok (some vd) →
      company_metadata m.penv m.cmSchema m.cmEnv [("stocks_raw", vd)] = .ok cm →
      exchange_rates m.penv m.erSchema m.erEnv = .ok er →
      macro_raw m.penv m.macroSchema m.macroEnv = .ok mr →
      sentimentStage m.penv m.sentSchema m.sentEnv (refsAfterCm vd cm) = .ok se →
      merge m = .ok (some (), allStages)) := by
  have hpos : ∀ (penv : PyEnv) (schema : Schema) (env : StocksEnv) (vd : List Row),
      stocks_raw penv schema env = .ok (some vd) → vd.length > 0 := by
    intro penv schema env vd hsr
    rcases hacq : stocksAcquire env with _ | merged
    · rw [stocks_raw, hacq] at hsr
      cases hsr
    · rw [stocks_raw, hacq] at hsr
      rcases hv : validate penv schema [] merged with e | vi
      · simp [stocksFinish, hv, Bind.bind, Except.bind] at hsr
      · by_cases hl : (dedupLast (fun r => (rowGet r "ticker", rowGet r "date")) vi.1).length > 0
        · rcases hlo : env.loadOk with _ | _ <;>
            simp [stocksFinish, hv, hl, hlo, Bind.bind, Except.bind,
              Pure.pure, Except.pure] at hsr
          rw [← hsr]
          exact hl
        · simp [stocksFinish, hv, hl, Bind.bind, Except.bind,
            Pure.pure, Except.pure] at hsr
  refine ⟨?_, ?_, ?_, ?_, ?_⟩
  · intro penv schema env hh hd
    simp [stocks_raw, stocksAcquire, hh, hd, Pure.pure, Except.pure]
  · intro penv schema env hh hw
    simp [stocks_raw, stocksAcquire, hh, hw, Pure.pure, Except.pure]
  · intro penv schema env merged inv hacq hval
    simp [stocks_raw, hacq, stocksFinish, hval, dedupLast, Bind.bind, Except.bind,
      Pure.pure, Except.pure]
  · intro m hsr
    simp [merge, hsr, Bind.bind, Except.bind, Pure.pure, Except.pure]
  · intro m vd cm er mr se hsr hcm her hmr hse
    have hne : ¬ vd.length = 0 := by
      have := hpos _ _ _ _ hsr
      omega
    simp [merge, hsr, hne, hcm, her, hmr, hse,
      Bind.bind, Except.bind, Pure.pure, Except.pure]

/-- Witness for C1 at concrete environments: a run whose base stage fails
aborts with no stage executed, and a run whose base stage succeeds executes
all five later stages even though every one of them fails or returns
nothing. -/
theorem C1_base_table_fatal_witness :
    stocksEnvFail.history = true ∧ stocksEnvFail.dirExists = false ∧
    stocks_raw env0 [] stocksEnvFail = .ok none ∧
    merge mergeEnvFail = .ok (none, []) ∧
    stocks_raw env0 [] stocksEnvOk = .ok (some [row0]) ∧
    merge mergeEnvOk = .ok (some (), allStages) := by
  refine ⟨rfl, rfl, ?_, ?_, by decide, ?_⟩
  · exact C1_base_table_fatal.1 env0 [] stocksEnvFail rfl rfl
  · exact C1_base_table_fatal.2.2.2.1 mergeEnvFail
      (C1_base_table_fatal.1 env0 [] stocksEnvFail rfl rfl)
  · exact C1_base_table_fatal.2.2.2.2 mergeEnvOk [row0] none none none none
      (by decide) (by decide) (by decide) (by decide) (by decide)

/-! ### Claim C2 — load failures: logged for some tables, `None` for others -/

/-- C2 counterexample: the base stage produces a non-empty valid partition
(`[row0]`), the warehouse load fails, and `stocks_raw` returns `None`
instead of that partition — refuting "for every table ... the processing
function still returns the in-memory valid partition". -/
theorem C2_load_failure_counterexample :
    validate env0 [] [] [row0] = .ok ([row0], []) ∧
    stocksEnvLoadFail.loadOk = false ∧
    stocks_raw env0 [] stocksEnvLoadFail = .ok none := ⟨by decide, rfl, by decide⟩

/-- C2 amended: for `exchange_rates`, `macro_raw` and `sentiment` a failing
warehouse load is only logged and the deduplicated valid partition is still
returned; for `stocks_raw` and `company_metadata` a failing load after a
non-empty valid partition makes the stage return `None` instead. -/
theorem C2_load_failure_amended :
    (∀ (penv : PyEnv) (schema : Schema) (env : ExchEnv) (merged : List Row)
      (vi : List Row × List Row), env.loadOk = false →
      exchAcquire env = some merged → validate penv schema [] merged = .ok vi →
      exchange_rates penv schema env = .ok (some (dedupLast (fun r => rowGet r "date") vi.1)))
  ∧ (∀ (penv : PyEnv) (schema : Schema) (env : MacroEnv) (merged : List Row)
      (vi : List Row × List Row), env.loadOk = false →
      env.acquired = some merged → validate penv schema [] merged = .ok vi →
      macro_raw penv schema env = .ok (some (dedupLast (fun r => rowGet r "quarter") vi.1)))
  ∧ (∀ (penv : PyEnv) (schema : Schema) (env : SentEnv) (refs : List (String × List Row))
      (df : List Row) (vi : List Row × List Row), env.loadOk = false →
      env.history = false → env.liveFile = some (some df) →
      validate penv schema refs df = .ok vi →
      sentimentStage penv schema env refs =
        .ok (some (dedupLast (fun r => (rowGet r "ticker", rowGet r "date")) vi.1)))
  ∧ (∀ (penv : PyEnv) (schema : Schema) (env : StocksEnv) (merged : List Row)
      (vi : List Row × List Row), env.loadOk = false →
      stocksAcquire env = some merged → validate penv schema [] merged = .ok vi →
      dedupLast (fun r => (rowGet r "ticker", rowGet r "date")) vi.1 ≠ [] →
      stocks_raw penv schema env = .ok none)
  ∧ (∀ (penv : PyEnv) (schema : Schema) (env : CompanyEnv) (refs : List (String × List Row))
      (merged : List Row) (vi : List Row × List Row), env.loadOk = false →
      companyAcquire env = some merged → validate penv schema refs merged = .ok vi →
      dedupLast (fun r => rowGet r "rank") vi.1 ≠ [] →
      company_metadata penv schema env refs = .ok none) := by
  refine ⟨?_, ?_, ?_, ?_, ?_⟩
  · intro penv schema env merged vi _ hacq hval
    simp [exchange_rates, hacq, hval, Bind.bind, Except.bind, Pure.pure, Except.pure]
  · intro penv schema env merged vi _ hacq hval
    simp [macro_raw, hacq, hval, Bind.bind, Except.bind, Pure.pure, Except.pure]
  · intro penv schema env refs df vi _ hh hlf hval
    simp [sentimentStage, hh, hlf, hval, Bind.bind, Except.bind, Pure.pure, Except.pure]
  · intro penv schema env merged vi hlo hacq hval hne
    have hl : (dedupLast (fun r => (rowGet r "ticker", rowGet r "date")) vi.1).length > 0 :=
      List.length_pos.2 hne
    simp [stocks_raw, hacq, stocksFinish, hval, hl, hlo,
      Bind.bind, Except.bind, Pure.pure, Except.pure]
  · intro penv schema env refs merged vi hlo hacq hval hne
    have hl : (dedupLast (fun r => rowGet r "rank") vi.1).length > 0 :=
      List.length_pos.2 hne
    simp [company_metadata, hacq, hval, hl, hlo,
      Bind.bind, Except.bind, Pure.pure, Except.pure]

/-- Witness for the amended C2 at concrete environments with failing
loaders. -/
theorem C2_load_failure_amended_witness :
    erEnvLF.loadOk = false ∧
    exchange_rates env0 [] erEnvLF = .ok (some [row0]) ∧
    macro_raw env0 [] macroEnvLF = .ok (some [row0]) ∧
    sentimentStage env0 [] sentEnvLF [] = .ok (some [row0]) ∧
    stocks_raw env0 [] stocksEnvLoadFail = .ok none ∧
    company_metadata env0 [] cmEnvLF [] = .ok none := by
  have h1 := C2_load_failure_amended.1 env0 [] erEnvLF [row0] ([row0], []) rfl (by decide)
    (by decide)
  have h2 := C2_load_failure_amended.2.1 env0 [] macroEnvLF [row0] ([row0], []) rfl rfl
    (by decide)
  have h3 := C2_load_failure_amended.2.2.1 env0 [] sentEnvLF [] [row0] ([row0], []) rfl rfl
    rfl (by decide)
  have h4 := C2_load_failure_amended.2.2.2.1 env0 [] stocksEnvLoadFail [row0] ([row0], [])
    rfl (by decide) (by decide) (by decide)
  have h5 := C2_load_failure_amended.2.2.2.2 env0 [] cmEnvLF [] [row0] ([row0], []) rfl rfl
    (by decide) (by decide)
  refine ⟨rfl, ?_, ?_, ?_, h4, h5⟩
  · rw [h1]
    decide
  · rw [h2]
    decide
  · rw [h3]
    decide

/-! ### Claim C4 — failure isolation between columns -/

/-- C4 counterexample: two runs differing only in the first row's integer
column `a` (a non-integer float vs. an integer).  In the first run `a`'s
coercion failure aborts the remaining columns of that row, so the unique
value `"X"` of column `b` is never registered and the second row is valid;
in the second run it is registered and the second row is invalid.  A
type-coercion failure on one column therefore can suppress the checking
(including uniqueness-tracker updates) of the other columns. -/
theorem C4_short_circuit_counterexample :
    (validate env0 c4Schema []
        [[("a", Value.floatV q12p5), ("b", Value.str "X")],
         [("a", Value.intV 2), ("b", Value.str "X")]] =
      .ok ([[("a", Value.intV 2), ("b", Value.str "X")]],
           [[("a", Value.floatV q12p5), ("b", Value.str "X")]]))
  ∧ (validate env0 c4Schema []
        [[("a", Value.intV 1), ("b", Value.str "X")],
         [("a", Value.intV 2), ("b", Value.str "X")]] =
      .ok ([[("a", Value.intV 1), ("b", Value.str "X")]],
           [[("a", Value.intV 2), ("b", Value.str "X")]])) := ⟨by decide, by decide⟩

/-- C4 amended: a failing rule short-circuits the remaining rules of that
column only (the result is independent of the rules after it, and the
tracker is left as the passed prefix built it); a column whose declared type
is not integer can never break out of the column loop; and whenever a
column steps with `next`, the remaining columns are processed with the
updated row copy and trackers — so only an integer coercion failure
suppresses the checking of the other columns. -/
theorem C4_short_circuit_amended :
    (∀ (env : PyEnv) (rlk : String → Option (List String)) (refs : List (String × List Row))
      (row : Row) (col : String) (val : Value) (tr : List Value) (r : Rule)
      (rest : List Rule),
      applyRule env rlk refs row col val tr r = .fail →
      applyRules env rlk refs row col val (r :: rest) tr = .ok (false, tr))
  ∧ (∀ (env : PyEnv) (rlk : String → Option (List String)) (refs : List (String × List Row))
      (row : Row) (col : String) (conf : ColConf) (rc : Row) (trs : Trackers)
      (rc' : Row) (trs' : Trackers),
      conf.type ≠ ColType.integer →
      processCol env rlk refs row col conf rc trs ≠ .brk rc' trs')
  ∧ (∀ (env : PyEnv) (rlk : String → Option (List String)) (refs : List (String × List Row))
      (row : Row) (cc : String × ColConf) (rest : Schema) (rc : Row) (trs : Trackers)
      (v : Bool) (rc' : Row) (trs' : Trackers) (ok : Bool),
      processCol env rlk refs row cc.1 cc.2 rc trs = .next rc' trs' ok →
      processCols env rlk refs row (cc :: rest) rc trs v =
        processCols env rlk refs row rest rc' trs' (v && ok)) := by
  have hrr : ∀ (env : PyEnv) (rlk : String → Option (List String))
      (refs : List (String × List Row)) (row : Row) (col : String) (val : Value)
      (rules : List Rule) (rc : Row) (trs : Trackers) (rc' : Row) (trs' : Trackers),
      runRules env rlk refs row col val rules rc trs ≠ .brk rc' trs' := by
    intro env rlk refs row col val rules rc trs rc' trs'
    unfold runRules
    split <;> simp
  refine ⟨?_, ?_, ?_⟩
  · intro env rlk refs row col val tr r rest hf
    unfold applyRules
    rw [hf]
  · intro env rlk refs row col conf rc trs rc' trs' hty
    unfold processCol
    rcases hct : conf.type <;> simp only [hct] <;> (repeat' split) <;>
      first
      | exact absurd hct hty
      | apply hrr
      | simp
  · intro env rlk refs row cc rest rc trs v rc' trs' ok hstep
    rcases cc with ⟨col, conf⟩
    simp [processCols, hstep]

/-- Witness for the amended C4 at concrete inputs. -/
theorem C4_short_circuit_amended_witness :
    applyRule env0 (fun _ => none) [] row0 "x" Value.null [] Rule.not_null = .fail
  ∧ applyRules env0 (fun _ => none) [] row0 "x" Value.null [Rule.not_null, Rule.nullable] []
      = .ok (false, [])
  ∧ processCol env0 (fun _ => none) [] row0 "ticker" ⟨ColType.string, []⟩ row0 (fun _ => [])
      ≠ .brk row0 (fun _ => [])
  ∧ processCols env0 (fun _ => none) [] row0 [("ticker", ⟨ColType.string, []⟩)] row0
      (fun _ => []) true
      = processCols env0 (fun _ => none) [] row0 [] row0
          (updTr (fun _ => []) "ticker" []) (true && true) := by
  refine ⟨rfl, ?_, ?_, ?_⟩
  · exact C4_short_circuit_amended.1 env0 (fun _ => none) [] row0 "x" Value.null []
      Rule.not_null [Rule.nullable] rfl
  · exact C4_short_circuit_amended.2.1 env0 (fun _ => none) [] row0 "ticker"
      ⟨ColType.string, []⟩ row0 (fun _ => []) row0 (fun _ => []) (by decide)
  · exact C4_short_circuit_amended.2.2 env0 (fun _ => none) [] row0
      ("ticker", ⟨ColType.string, []⟩) [] row0 (fun _ => []) true row0
      (updTr (fun _ => []) "ticker" []) true rfl

/-! ### Claim C3 — round-trip lemmas -/

theorem hasUpperTrim_strip (rs : List Rule) :
    hasUpperTrim (stripRules rs) = hasUpperTrim rs := by
  induction rs with
  | nil => rfl
  | cons r rs ih =>
    cases r <;>
      simp [stripRules, ruleStateful, hasUpperTrim, Rule.isUpperTrim,
        List.filter_cons, List.any_cons] at ih ⊢ <;> exact ih

/-! Idempotence of `upper ∘ strip` on its own image. -/

theorem char_toNat_ofNat {n : ℕ} (h : n.isValidChar) : (Char.ofNat n).toNat = n := by
  unfold Char.ofNat
  rw [dif_pos h]
  rfl

theorem char_eq_of_toNat {a b : Char} (h : a.toNat = b.toNat) : a = b := by
  rw [← Char.ofNat_toNat a, ← Char.ofNat_toNat b, h]

theorem upChar_toNat (c : Char) :
    (upChar c).toNat = if 97 ≤ c.toNat && c.toNat ≤ 122 then c.toNat - 32 else c.toNat := by
  unfold upChar
  split
  case isTrue h =>
    have h' : 97 ≤ c.toNat ∧ c.toNat ≤ 122 := by simpa using h
    exact char_toNat_ofNat (Or.inl (by omega))
  case isFalse h => rfl

theorem upChar_upChar (c : Char) : upChar (upChar c) = upChar c := by
  apply char_eq_of_toNat
  by_cases h : (97 ≤ c.toNat && c.toNat ≤ 122) = true
  · have h' : 97 ≤ c.toNat ∧ c.toNat ≤ 122 := by simpa using h
    have h1 : (upChar c).toNat = c.toNat - 32 := by rw [upChar_toNat, if_pos h]
    rw [upChar_toNat, h1, if_neg (by simp; omega)]
  · have h1 : (upChar c).toNat = c.toNat := by rw [upChar_toNat, if_neg h]
    rw [upChar_toNat, h1, if_neg h]

theorem isWs_upChar (c : Char) : isWs (upChar c) = isWs c := by
  by_cases h : (97 ≤ c.toNat && c.toNat ≤ 122) = true
  · have h' : 97 ≤ c.toNat ∧ c.toNat ≤ 122 := by simpa using h
    have h1 : (upChar c).toNat = c.toNat - 32 := by rw [upChar_toNat, if_pos h]
    rw [← Bool.coe_iff_coe]
    unfold isWs
    rw [h1]
    simp
    omega
  · unfold upChar
    rw [if_neg h]

theorem pyUpper_pyUpper (s : String) : pyUpper (pyUpper s) = pyUpper s := by
  unfold pyUpper
  simp only [List.map_map]
  congr 1
  refine List.map_congr_left fun c _ => ?_
  simp [upChar_upChar]

theorem stripL_map_upChar (l : List Char) :
    ((l.map upChar).dropWhile isWs).rdropWhile isWs =
      ((l.dropWhile isWs).rdropWhile isWs).map upChar := by
  have hcomp : (isWs ∘ upChar) = isWs := funext isWs_upChar
  have hdw : ∀ m : List Char, (m.map upChar).dropWhile isWs = (m.dropWhile isWs).map upChar := by
    intro m
    rw [List.dropWhile_map, hcomp]
  have hrdw : ∀ m : List Char, (m.map upChar).rdropWhile isWs = (m.rdropWhile isWs).map upChar := by
    intro m
    unfold List.rdropWhile
    rw [← List.map_reverse, hdw, List.map_reverse]
  rw [hdw, hrdw]

theorem pyStrip_pyUpper (s : String) : pyStrip (pyUpper s) = pyUpper (pyStrip s) := by
  unfold pyStrip pyUpper
  exact congrArg String.mk (stripL_map_upChar s.data)

theorem pyStrip_pyStrip (s : String) : pyStrip (pyStrip s) = pyStrip s := by
  unfold pyStrip
  simp only
  refine congrArg String.mk ?_
  set m := s.data.dropWhile isWs with hm
  have hmm : m.dropWhile isWs = m := List.dropWhile_idempotent isWs s.data
  set r := m.rdropWhile isWs with hr
  have hrm : r.dropWhile isWs = r := by
    rw [List.dropWhile_eq_self_iff]
    intro hl
    have hpre : r <+: m := List.rdropWhile_prefix isWs m
    have hlm : 0 < m.length := lt_of_lt_of_le hl hpre.length_le
    have hg : r[0] = m[0] := hpre.getElem hl
    have hnws := List.dropWhile_eq_self_iff.1 hmm hlm
    simp only [List.get_eq_getElem]
    rw [hg]
    simpa using hnws
  rw [hrm]
  exact List.rdropWhile_idempotent isWs m

theorem upperStrip_idem (s : String) :
    pyUpper (pyStrip (pyUpper (pyStrip s))) = pyUpper (pyStrip s) := by
  rw [pyStrip_pyUpper, pyUpper_pyUpper, pyStrip_pyStrip]

/-! Row-update lemmas. -/

theorem rowGet_cons (p : String × Value) (t : Row) (d : String) :
    rowGet (p :: t) d = if p.1 == d then p.2 else rowGet t d := by
  unfold rowGet
  by_cases h : (p.1 == d) = true <;> simp [List.find?_cons, h]

theorem rowSet_cons (p : String × Value) (t : Row) (c : String) (v : Value) :
    rowSet (p :: t) c v = (if p.1 = c then (p.1, v) else p) :: rowSet t c v := rfl

theorem rowSet_get_ne (r : Row) (c d : String) (v : Value) (h : d ≠ c) :
    rowGet (rowSet r c v) d = rowGet r d := by
  induction r with
  | nil => rfl
  | cons p t ih =>
    rw [rowSet_cons, rowGet_cons, rowGet_cons]
    by_cases hk : p.1 = c
    · have hd : (p.1 == d) = false := by
        simp only [beq_eq_false_iff_ne, ne_eq]
        rw [hk]
        exact fun hh => h hh.symm
      rw [if_pos hk]
      simp only [hd]
      simp only [Bool.false_eq_true, if_false]
      exact ih
    · rw [if_neg hk]
      by_cases hd : (p.1 == d) = true
      · simp [hd]
      · simp only [Bool.not_eq_true] at hd
        simp only [hd, Bool.false_eq_true, if_false]
        exact ih

theorem rowSet_get_self (r : Row) (c : String) (v : Value)
    (h : rowGet r c ≠ .null) : rowGet (rowSet r c v) c = v := by
  induction r with
  | nil => exact absurd rfl h
  | cons p t ih =>
    rw [rowGet_cons] at h
    rw [rowSet_cons, rowGet_cons]
    by_cases hk : (p.1 == c) = true
    · have hk' : p.1 = c := by simpa using hk
      rw [if_pos hk']
      simp only [hk]
      simp
    · have hk' : ¬ p.1 = c := by simpa using hk
      rw [if_neg hk']
      simp only [Bool.not_eq_true] at hk
      simp only [hk, Bool.false_eq_true, if_false] at h ⊢
      exact ih h

theorem rowSet_keys (r : Row) (c : String) (v : Value) :
    (rowSet r c v).map Prod.fst = r.map Prod.fst := by
  unfold rowSet
  rw [List.map_map]
  refine List.map_congr_left fun p _ => ?_
  by_cases hk : p.1 = c <;> simp [hk]

theorem rowSet_rowSet (r : Row) (c : String) (v w : Value) :
    rowSet (rowSet r c v) c w = rowSet r c w := by
  unfold rowSet
  rw [List.map_map]
  refine List.map_congr_left fun p _ => ?_
  by_cases hk : p.1 = c <;> simp [hk]

theorem rowSet_of_not_mem (r : Row) (c : String) (v : Value)
    (h : c ∉ r.map Prod.fst) : rowSet r c v = r := by
  induction r with
  | nil => rfl
  | cons p t ih =>
    rw [rowSet_cons]
    simp only [List.map_cons, List.mem_cons] at h
    push_neg at h
    rw [if_neg (fun hh => h.1 hh.symm), ih h.2]

theorem rowSet_self (r : Row) (c : String) (v : Value) (hwf : rowWF r)
    (h : rowGet r c = v) : rowSet r c v = r := by
  induction r with
  | nil => rfl
  | cons p t ih =>
    unfold rowWF at hwf
    simp only [List.map_cons, List.nodup_cons] at hwf
    rw [rowSet_cons]
    rw [rowGet_cons] at h
    by_cases hk : (p.1 == c) = true
    · have hk' : p.1 = c := by simpa using hk
      simp only [hk, if_true] at h
      rw [if_pos hk', ← h, ← hk', rowSet_of_not_mem t p.1 p.2 hwf.1]
    · have hk' : ¬ p.1 = c := by simpa using hk
      simp only [Bool.not_eq_true] at hk
      simp only [hk, Bool.false_eq_true, if_false] at h
      rw [if_neg hk', ih hwf.2 h]

theorem updTr_self (trs : Trackers) (col : String) : updTr trs col (trs col) = trs := by
  funext c
  unfold updTr
  by_cases h : c = col
  · rw [if_pos h, h]
  · rw [if_neg h]

/-- A rule that is not stateful evaluates as a pure function of the runtime
and the (coerced) cell value: the tracker passes through unchanged and the
outcome does not depend on `rlk`, `refs`, `row` or the tracker. -/
theorem applyRule_stateless (env : PyEnv) (rlk : String → Option (List String))
    (refs : List (String × List Row)) (row : Row) (col : String) (val : Value)
    (tr tr' : List Value) (r : Rule) (hr : ruleStateful r = false)
    (h : applyRule env rlk refs row col val tr r = .pass tr') :
    tr' = tr ∧ ∀ (rlk2 : String → Option (List String)) (refs2 : List (String × List Row))
      (row2 : Row) (tr2 : List Value),
      applyRule env rlk2 refs2 row2 col val tr2 r = .pass tr2 := by
  cases r with
  | not_null =>
    simp only [applyRule] at h ⊢
    split at h
    case isTrue hcond =>
      cases h
      exact ⟨rfl, fun _ _ _ _ => by simp [hcond]⟩
    case isFalse hcond => cases h
  | nullable =>
    cases h
    exact ⟨rfl, fun _ _ _ _ => rfl⟩
  | positive =>
    simp only [applyRule] at h ⊢
    split at h
    case isTrue hcond =>
      rcases hf : pyFloat env val with _ | q <;> rw [hf] at h
      · cases h
      · simp only at h
        split at h
        case isTrue => cases h
        case isFalse hq =>
          cases h
          exact ⟨rfl, fun _ _ _ _ => by simp [hcond, hf, hq]⟩
    case isFalse hcond =>
      cases h
      exact ⟨rfl, fun _ _ _ _ => by simp [hcond]⟩
  | non_negative =>
    simp only [applyRule] at h ⊢
    split at h
    case isTrue hcond =>
      rcases hf : pyFloat env val with _ | q <;> rw [hf] at h
      · cases h
      · simp only at h
        split at h
        case isTrue => cases h
        case isFalse hq =>
          cases h
          exact ⟨rfl, fun _ _ _ _ => by simp [hcond, hf, hq]⟩
    case isFalse hcond =>
      cases h
      exact ⟨rfl, fun _ _ _ _ => by simp [hcond]⟩
  | unique => cases hr
  | unique_trimmed => cases hr
  | iso_date =>
    simp only [applyRule] at h ⊢
    split at h
    case isTrue hcond =>
      rcases hf : pyToDT env val with _ | d <;> rw [hf] at h
      · cases h
      · cases h
        exact ⟨rfl, fun _ _ _ _ => by simp [hcond, hf]⟩
    case isFalse hcond =>
      cases h
      exact ⟨rfl, fun _ _ _ _ => by simp [hcond]⟩
  | pattern p =>
    simp only [applyRule] at h ⊢
    split at h
    case isTrue hcond => cases h
    case isFalse hcond =>
      cases h
      exact ⟨rfl, fun _ _ _ _ => by simp [hcond]⟩
  | in_range lo hi =>
    simp only [applyRule] at h ⊢
    split at h
    case isTrue hcond =>
      rcases hf : pyFloat env val with _ | q <;> rw [hf] at h
      · cases h
      · simp only at h
        split at h
        case isTrue hq =>
          cases h
          exact ⟨rfl, fun _ _ _ _ => by simp [hcond, hf, hq]⟩
        case isFalse hq => cases h
    case isFalse hcond =>
      cases h
      exact ⟨rfl, fun _ _ _ _ => by simp [hcond]⟩
  | referential t c => cases hr
  | matchCompany t => cases hr
  | uppercase_trim =>
    cases h
    exact ⟨rfl, fun _ _ _ _ => rfl⟩

/-- First half of the round-trip at rule-list level: if a column's rule list
passed, the stripped rule list passes again on the same coerced value, with
any tracker, no refs and no referential lookups. -/
theorem applyRules_stripped (env : PyEnv) (rlk : String → Option (List String))
    (refs : List (String × List Row)) (row : Row) (col : String) (val : Value) :
    ∀ (rules : List Rule) (tr tr' : List Value),
      applyRules env rlk refs row col val rules tr = .ok (true, tr') →
      ∀ (row2 : Row) (tr2 : List Value),
        applyRules env (fun _ => none) [] row2 col val (stripRules rules) tr2 =
          .ok (true, tr2) := by
  intro rules
  induction rules with
  | nil =>
    intro tr tr' _ row2 tr2
    rfl
  | cons r rs ih =>
    intro tr tr' h row2 tr2
    rcases ha : applyRule env rlk refs row col val tr r with tra | _ | _ <;>
      simp only [applyRules, ha] at h
    · by_cases hst : ruleStateful r = true
      · have hs : stripRules (r :: rs) = stripRules rs := by
          unfold stripRules
          rw [List.filter_cons]
          simp [hst]
        rw [hs]
        exact ih _ _ h row2 tr2
      · have hs2 : ruleStateful r = false := by simpa using hst
        obtain ⟨htr, hall⟩ := applyRule_stateless env rlk refs row col val tr tra r hs2 ha
        have hs : stripRules (r :: rs) = r :: stripRules rs := by
          unfold stripRules
          rw [List.filter_cons]
          simp [hs2]
        rw [hs]
        unfold applyRules
        rw [hall (fun _ => none) [] row2 tr2]
        subst htr
        exact ih _ _ h row2 tr2
    · simp at h
    · simp at h

theorem processCol_next_frame {env : PyEnv} {rlk : String → Option (List String)}
    {refs : List (String × List Row)} {row : Row} {col : String} {conf : ColConf}
    {rc : Row} {trs : Trackers} {rc' : Row} {trs' : Trackers} {ok : Bool}
    (h : processCol env rlk refs row col conf rc trs = .next rc' trs' ok) :
    (∀ d, d ≠ col → rowGet rc' d = rowGet rc d) ∧ rc'.map Prod.fst = rc.map Prod.fst := by
  simp only [processCol, runRules] at h
  repeat' split at h
  all_goals
    first
    | (cases h
       dsimp only
       refine ⟨fun d hd => ?_, ?_⟩
       · first
         | rw [rowSet_get_ne _ _ _ _ hd, rowSet_get_ne _ _ _ _ hd]
         | rw [rowSet_get_ne _ _ _ _ hd]
         | rfl
       · first
         | rw [rowSet_keys, rowSet_keys]
         | rw [rowSet_keys]
         | rfl)
    | cases h

theorem processCol_brk_frame {env : PyEnv} {rlk : String → Option (List String)}
    {refs : List (String × List Row)} {row : Row} {col : String} {conf : ColConf}
    {rc : Row} {trs : Trackers} {rc' : Row} {trs' : Trackers}
    (h : processCol env rlk refs row col conf rc trs = .brk rc' trs') :
    (∀ d, d ≠ col → rowGet rc' d = rowGet rc d) ∧ rc'.map Prod.fst = rc.map Prod.fst := by
  simp only [processCol, runRules] at h
  repeat' split at h
  all_goals
    first
    | (cases h
       dsimp only
       refine ⟨fun d hd => ?_, ?_⟩
       · first
         | rw [rowSet_get_ne _ _ _ _ hd, rowSet_get_ne _ _ _ _ hd]
         | rw [rowSet_get_ne _ _ _ _ hd]
         | rfl
       · first
         | rw [rowSet_keys, rowSet_keys]
         | rw [rowSet_keys]
         | rfl)
    | cases h

theorem processCols_true_mono (env : PyEnv) (rlk : String → Option (List String))
    (refs : List (String × List Row)) (row : Row) :
    ∀ (cols : Schema) (rc : Row) (trs : Trackers) (v : Bool) (rcF : Row) (trsF : Trackers),
      processCols env rlk refs row cols rc trs v = .ok (rcF, trsF, true) → v = true := by
  intro cols
  induction cols with
  | nil =>
    intro rc trs v rcF trsF h
    simp only [processCols] at h
    cases h
    rfl
  | cons cc rest ih =>
    intro rc trs v rcF trsF h
    rcases hc : processCol env rlk refs row cc.1 cc.2 rc trs with ⟨rc1, trs1, ok1⟩ | ⟨rc1, trs1⟩ | _ <;>
      simp only [processCols, hc] at h
    · have hv := ih _ _ _ _ _ h
      rw [Bool.and_eq_true] at hv
      exact hv.1
    · simp at h
    · cases h

theorem processCols_frame (env : PyEnv) (rlk : String → Option (List String))
    (refs : List (String × List Row)) (row : Row) :
    ∀ (cols : Schema) (rc : Row) (trs : Trackers) (v vF : Bool) (rcF : Row) (trsF : Trackers),
      processCols env rlk refs row cols rc trs v = .ok (rcF, trsF, vF) →
      (∀ c, (∀ p ∈ cols, p.1 ≠ c) → rowGet rcF c = rowGet rc c) ∧
      rcF.map Prod.fst = rc.map Prod.fst := by
  intro cols
  induction cols with
  | nil =>
    intro rc trs v vF rcF trsF h
    simp only [processCols] at h
    cases h
    exact ⟨fun c _ => rfl, rfl⟩
  | cons cc rest ih =>
    intro rc trs v vF rcF trsF h
    rcases hc : processCol env rlk refs row cc.1 cc.2 rc trs with ⟨rc1, trs1, ok1⟩ | ⟨rc1, trs1⟩ | _ <;>
      simp only [processCols, hc] at h
    · obtain ⟨hg1, hk1⟩ := processCol_next_frame hc
      obtain ⟨hg2, hk2⟩ := ih _ _ _ _ _ _ h
      refine ⟨fun c hcnot => ?_, hk2.trans hk1⟩
      rw [hg2 c fun p hp => hcnot p (List.mem_cons_of_mem _ hp),
        hg1 c fun hcc => (hcnot cc (List.mem_cons_self _ _)) hcc.symm]
    · obtain ⟨hg1, hk1⟩ := processCol_brk_frame hc
      cases h
      refine ⟨fun c hcnot => ?_, hk1⟩
      exact hg1 c fun hcc => (hcnot cc (List.mem_cons_self _ _)) hcc.symm
    · cases h

theorem pyNotna_iff (v : Value) : pyNotna v = true ↔ v ≠ .null := by
  cases v <;> simp [pyNotna]

/-- The heart of the round-trip: a column step that kept the row valid maps
the written cell to a value on which the stripped column configuration
steps again with `next ... true`, leaving row copy and trackers unchanged. -/
theorem processCol_roundtrip {env : PyEnv} {rlk : String → Option (List String)}
    {refs : List (String × List Row)} {row : Row} {col : String} {conf : ColConf}
    {rc : Row} {trs : Trackers} {rc1 : Row} {trs1 : Trackers}
    (hLf : conf.type = ColType.float → hasUpperTrim conf.rules = true →
      ∀ q : ℚ, env.parseFloat (pyUpper (pyStrip (env.showFloat q))) = some q)
    (hLi : conf.type = ColType.integer → hasUpperTrim conf.rules = true →
      ∀ n : ℤ, intFullParse (pyStrip (pyUpper (pyStrip (env.showInt n)))) = some n)
    (hLd : conf.type = ColType.date → hasUpperTrim conf.rules = true →
      ∀ d : ℤ, env.parseDate (pyUpper (pyStrip (env.showDate d))) = some d)
    (hget : rowGet rc col = rowGet row col)
    (hstep : processCol env rlk refs row col conf rc trs = .next rc1 trs1 true) :
    ∀ (row2 rc2 : Row) (trs2 : Trackers),
      rowGet row2 col = rowGet rc1 col → rowGet rc2 col = rowGet rc1 col → rowWF rc2 →
      processCol env (fun _ => none) [] row2 col (stripConf conf) rc2 trs2 =
        .next rc2 trs2 true := by
  intro row2 rc2 trs2 hrow2 hrc2 hwf2
  have hTrEq : hasUpperTrim (stripConf conf).rules = hasUpperTrim conf.rules :=
    hasUpperTrim_strip conf.rules
  by_cases hnot : pyNotna (rowGet row col) = true
  case neg =>
    -- the cell is missing: no normalisation, no coercion, rules on null
    have hnul : rowGet row col = .null := by
      rcases hv : rowGet row col with _ | s | n | q | d <;> rw [hv] at hnot <;> simp_all [pyNotna]
    simp only [processCol, runRules, hnul, pyNotna, Bool.and_false, Bool.false_eq_true,
      if_false] at hstep
    rcases har : applyRules env rlk refs row col Value.null conf.rules (trs col)
      with u | ⟨okb, trb⟩ <;> rw [har] at hstep
    · cases hstep
    · simp only at hstep
      cases hstep
      -- re-validation: the written cell is still null
      have hw : rowGet row2 col = Value.null := by
        rw [hrow2, hget, hnul]
      simp only [processCol, runRules, stripConf, hw, pyNotna, Bool.and_false,
        Bool.false_eq_true, if_false]
      rw [applyRules_stripped env rlk refs row col Value.null conf.rules (trs col) trb
        har row2 (trs2 col)]
      dsimp only
      rw [updTr_self]
  case pos =>
    have hno : rowGet rc col ≠ Value.null := by
      rw [hget]
      exact (pyNotna_iff _).1 hnot
    by_cases htrim : hasUpperTrim conf.rules = true
    case neg =>
      have htrimF : hasUpperTrim conf.rules = false := by simpa using htrim
      have htrimS : hasUpperTrim (stripRules conf.rules) = false := by
        rw [hasUpperTrim_strip, htrimF]
      rcases hty : conf.type with _ | _ | _ | _ | _
      case string =>
        simp only [processCol, runRules, htrimF, Bool.false_and, Bool.false_eq_true,
          if_false, hnot, if_true, hty] at hstep
        rcases har : applyRules env rlk refs row col (Value.str (pyStr env (rowGet row col)))
            conf.rules (trs col) with u | ⟨okb, trb⟩ <;> rw [har] at hstep
        · cases hstep
        · simp only at hstep
          cases hstep
          have hw : rowGet row2 col = Value.str (pyStr env (rowGet row col)) := by
            rw [hrow2, rowSet_get_self _ _ _ hno]
          have hrc2v : rowGet rc2 col = Value.str (pyStr env (rowGet row col)) := by
            rw [hrc2, rowSet_get_self _ _ _ hno]
          have hps : ∀ x, pyStr env (Value.str x) = x := fun _ => rfl
          simp only [processCol, runRules, stripConf, htrimS, Bool.false_and, Bool.and_true,
            Bool.false_eq_true, if_false, hw, pyNotna, if_true, hty, hps]
          rw [applyRules_stripped env rlk refs row col
            (Value.str (pyStr env (rowGet row col))) conf.rules (trs col) trb har
            row2 (trs2 col)]
          dsimp only
          rw [updTr_self, rowSet_self rc2 col _ hwf2 hrc2v]
      case float =>
        simp only [processCol, runRules, htrimF, Bool.false_and, Bool.false_eq_true,
          if_false, hnot, if_true, hty] at hstep
        rcases hf : pyFloat env (rowGet row col) with _ | q <;> rw [hf] at hstep <;>
          simp only at hstep
        · simp at hstep
        · rcases har : applyRules env rlk refs row col (Value.floatV q)
              conf.rules (trs col) with u | ⟨okb, trb⟩ <;> rw [har] at hstep
          · cases hstep
          · try simp only at hstep
            cases hstep
            have hw : rowGet row2 col = Value.floatV q := by
              rw [hrow2, rowSet_get_self _ _ _ hno]
            have hrc2v : rowGet rc2 col = Value.floatV q := by
              rw [hrc2, rowSet_get_self _ _ _ hno]
            simp only [processCol, runRules, stripConf, htrimS, Bool.false_and,
              Bool.and_true, Bool.false_eq_true, if_false, hw, pyNotna, if_true, hty,
              pyFloat]
            rw [applyRules_stripped env rlk refs row col (Value.floatV q) conf.rules
              (trs col) trb har row2 (trs2 col)]
            dsimp only
            rw [updTr_self, rowSet_self rc2 col _ hwf2 hrc2v]
      case integer =>
        simp only [processCol, runRules, htrimF, Bool.false_and, Bool.false_eq_true,
          if_false, hnot, if_true, hty] at hstep
        rcases hval : rowGet row col with _ | sS | n | q | d <;> rw [hval] at hstep <;>
          simp only at hstep
        · rw [hval] at hnot
          simp [pyNotna] at hnot
        · rcases hip : intFullParse (pyStrip sS) with _ | n <;> rw [hip] at hstep <;>
            try simp only at hstep
          · cases hstep
          · try simp only at hstep
            cases hstep
            have hno2 : rowGet rc col ≠ Value.null := hno
            have hw : rowGet row2 col = Value.intV n := by
              rw [hrow2, rowSet_get_self _ _ _ hno]
            have hrc2v : rowGet rc2 col = Value.intV n := by
              rw [hrc2, rowSet_get_self _ _ _ hno]
            simp only [processCol, runRules, stripConf, htrimS, Bool.false_and,
              Bool.and_true, Bool.false_eq_true, if_false, hw, pyNotna, if_true, hty]
            rw [rowSet_self rc2 col _ hwf2 hrc2v]
        · try simp only at hstep
          cases hstep
          have hw : rowGet row2 col = Value.intV n := by
            rw [hrow2, rowSet_get_self _ _ _ hno]
          have hrc2v : rowGet rc2 col = Value.intV n := by
            rw [hrc2, rowSet_get_self _ _ _ hno]
          simp only [processCol, runRules, stripConf, htrimS, Bool.false_and,
            Bool.and_true, Bool.false_eq_true, if_false, hw, pyNotna, if_true, hty]
          rw [rowSet_self rc2 col _ hwf2 hrc2v]
        · by_cases hden : q.den = 1
          · rw [if_pos hden] at hstep
            try simp only at hstep
            cases hstep
            have hw : rowGet row2 col = Value.intV q.num := by
              rw [hrow2, rowSet_get_self _ _ _ hno]
            have hrc2v : rowGet rc2 col = Value.intV q.num := by
              rw [hrc2, rowSet_get_self _ _ _ hno]
            simp only [processCol, runRules, stripConf, htrimS, Bool.false_and,
              Bool.and_true, Bool.false_eq_true, if_false, hw, pyNotna, if_true, hty]
            rw [rowSet_self rc2 col _ hwf2 hrc2v]
          · rw [if_neg hden] at hstep
            cases hstep
        · cases hstep
      case date =>
        simp only [processCol, runRules, htrimF, Bool.false_and, Bool.false_eq_true,
          if_false, hnot, if_true, hty] at hstep
        rcases hf : pyToDT env (rowGet row col) with _ | d <;> rw [hf] at hstep <;>
          simp only at hstep
        · simp at hstep
        · rcases har : applyRules env rlk refs row col (Value.dateV d)
              conf.rules (trs col) with u | ⟨okb, trb⟩ <;> rw [har] at hstep
          · cases hstep
          · simp only at hstep
            cases hstep
            have hw : rowGet row2 col = Value.dateV d := by
              rw [hrow2, rowSet_get_self _ _ _ hno]
            have hrc2v : rowGet rc2 col = Value.dateV d := by
              rw [hrc2, rowSet_get_self _ _ _ hno]
            simp only [processCol, runRules, stripConf, htrimS, Bool.false_and,
              Bool.and_true, Bool.false_eq_true, if_false, hw, pyNotna, if_true, hty,
              pyToDT]
            rw [applyRules_stripped env rlk refs row col (Value.dateV d) conf.rules
              (trs col) trb har row2 (trs2 col)]
            dsimp only
            rw [updTr_self, rowSet_self rc2 col _ hwf2 hrc2v]
      case untyped =>
        simp only [processCol, runRules, htrimF, Bool.false_and, Bool.false_eq_true,
          if_false, hnot, if_true, hty] at hstep
        rcases har : applyRules env rlk refs row col (rowGet row col)
            conf.rules (trs col) with u | ⟨okb, trb⟩ <;> rw [har] at hstep
        · cases hstep
        · simp only at hstep
          cases hstep
          have hw : rowGet row2 col = rowGet row col := by
            rw [hrow2, hget]
          simp only [processCol, runRules, stripConf, htrimS, Bool.false_and,
            Bool.and_true, Bool.false_eq_true, if_false, hw, hnot, if_true, hty]
          rw [applyRules_stripped env rlk refs row col (rowGet row col) conf.rules
            (trs col) trb har row2 (trs2 col)]
          dsimp only
          rw [updTr_self]
    case pos =>
      have hps : ∀ x, pyStr env (Value.str x) = x := fun _ => rfl
      have hpfs : ∀ x, pyFloat env (Value.str x) = env.parseFloat x := fun _ => rfl
      have hpds : ∀ x, pyToDT env (Value.str x) = env.parseDate x := fun _ => rfl
      have hpns : ∀ x, pyNotna (Value.str x) = true := fun _ => rfl
      have hpnf : ∀ x, pyNotna (Value.floatV x) = true := fun _ => rfl
      have hpni : ∀ x, pyNotna (Value.intV x) = true := fun _ => rfl
      have hpnd : ∀ x, pyNotna (Value.dateV x) = true := fun _ => rfl
      have htrimS' : hasUpperTrim (stripRules conf.rules) = true := by
        rw [hasUpperTrim_strip, htrim]
      have hidem : pyUpper (pyStrip (pyUpper (pyStrip (pyStr env (rowGet row col))))) =
          pyUpper (pyStrip (pyStr env (rowGet row col))) := upperStrip_idem _
      rcases hty : conf.type with _ | _ | _ | _ | _
      case string =>
        simp only [processCol, runRules, htrim, hnot, Bool.true_and, if_true, hty,
          hpns, hps] at hstep
        rcases har : applyRules env rlk refs row col
            (Value.str (pyUpper (pyStrip (pyStr env (rowGet row col))))) conf.rules
            (trs col) with u | ⟨okb, trb⟩ <;> rw [har] at hstep <;> try simp only at hstep
        · cases hstep
        · cases hstep
          have hw : rowGet row2 col =
              Value.str (pyUpper (pyStrip (pyStr env (rowGet row col)))) := by
            rw [hrow2, rowSet_rowSet, rowSet_get_self _ _ _ hno]
          have hrc2v : rowGet rc2 col =
              Value.str (pyUpper (pyStrip (pyStr env (rowGet row col)))) := by
            rw [hrc2, rowSet_rowSet, rowSet_get_self _ _ _ hno]
          simp only [processCol, runRules, stripConf, htrimS', hw, Bool.true_and, hpns,
            if_true, hty, hps, hidem]
          rw [applyRules_stripped env rlk refs row col
            (Value.str (pyUpper (pyStrip (pyStr env (rowGet row col))))) conf.rules
            (trs col) trb har row2 (trs2 col)]
          dsimp only
          rw [updTr_self, rowSet_rowSet, rowSet_self rc2 col _ hwf2 hrc2v]
      case float =>
        simp only [processCol, runRules, htrim, hnot, Bool.true_and, if_true, hty,
          hpns, hps, hpfs] at hstep
        rcases hf : env.parseFloat (pyUpper (pyStrip (pyStr env (rowGet row col))))
          with _ | q <;> rw [hf] at hstep <;> try simp only at hstep
        · simp at hstep
        · rcases har : applyRules env rlk refs row col (Value.floatV q)
              conf.rules (trs col) with u | ⟨okb, trb⟩ <;> rw [har] at hstep <;>
            try simp only at hstep
          · cases hstep
          · cases hstep
            have hw : rowGet row2 col = Value.floatV q := by
              rw [hrow2, rowSet_rowSet, rowSet_get_self _ _ _ hno]
            have hrc2v : rowGet rc2 col = Value.floatV q := by
              rw [hrc2, rowSet_rowSet, rowSet_get_self _ _ _ hno]
            have hpfq : pyStr env (Value.floatV q) = env.showFloat q := rfl
            have hlaw := hLf hty htrim q
            simp only [processCol, runRules, stripConf, htrimS', hw, Bool.true_and, hpnf, hpns,
              if_true, hty, hps, hpfs, hpfq, hlaw]
            rw [applyRules_stripped env rlk refs row col (Value.floatV q) conf.rules
              (trs col) trb har row2 (trs2 col)]
            dsimp only
            rw [updTr_self, rowSet_rowSet, rowSet_self rc2 col _ hwf2 hrc2v]
      case integer =>
        simp only [processCol, runRules, htrim, hnot, Bool.true_and, if_true, hty,
          hpns, hps] at hstep
        rcases hip : intFullParse (pyStrip (pyUpper (pyStrip (pyStr env (rowGet row col)))))
          with _ | n <;> rw [hip] at hstep <;> try simp only at hstep
        · cases hstep
        · cases hstep
          have hw : rowGet row2 col = Value.intV n := by
            rw [hrow2, rowSet_rowSet, rowSet_get_self _ _ _ hno]
          have hrc2v : rowGet rc2 col = Value.intV n := by
            rw [hrc2, rowSet_rowSet, rowSet_get_self _ _ _ hno]
          have hpin : pyStr env (Value.intV n) = env.showInt n := rfl
          have hlaw := hLi hty htrim n
          simp only [processCol, runRules, stripConf, htrimS', hw, Bool.true_and, hpni, hpns,
            if_true, hty, hps, hpin, hlaw]
          rw [rowSet_rowSet, rowSet_self rc2 col _ hwf2 hrc2v]
      case date =>
        simp only [processCol, runRules, htrim, hnot, Bool.true_and, if_true, hty,
          hpns, hps, hpds] at hstep
        rcases hf : env.parseDate (pyUpper (pyStrip (pyStr env (rowGet row col))))
          with _ | d <;> rw [hf] at hstep <;> try simp only at hstep
        · simp at hstep
        · rcases har : applyRules env rlk refs row col (Value.dateV d)
              conf.rules (trs col) with u | ⟨okb, trb⟩ <;> rw [har] at hstep <;>
            try simp only at hstep
          · cases hstep
          · cases hstep
            have hw : rowGet row2 col = Value.dateV d := by
              rw [hrow2, rowSet_rowSet, rowSet_get_self _ _ _ hno]
            have hrc2v : rowGet rc2 col = Value.dateV d := by
              rw [hrc2, rowSet_rowSet, rowSet_get_self _ _ _ hno]
            have hpdd : pyStr env (Value.dateV d) = env.showDate d := rfl
            have hlaw := hLd hty htrim d
            simp only [processCol, runRules, stripConf, htrimS', hw, Bool.true_and, hpnd, hpns,
              if_true, hty, hps, hpds, hpdd, hlaw]
            rw [applyRules_stripped env rlk refs row col (Value.dateV d) conf.rules
              (trs col) trb har row2 (trs2 col)]
            dsimp only
            rw [updTr_self, rowSet_rowSet, rowSet_self rc2 col _ hwf2 hrc2v]
      case untyped =>
        simp only [processCol, runRules, htrim, hnot, Bool.true_and, if_true, hty,
          hpns, hps] at hstep
        rcases har : applyRules env rlk refs row col
            (Value.str (pyUpper (pyStrip (pyStr env (rowGet row col))))) conf.rules
            (trs col) with u | ⟨okb, trb⟩ <;> rw [har] at hstep <;> try simp only at hstep
        · cases hstep
        · cases hstep
          have hw : rowGet row2 col =
              Value.str (pyUpper (pyStrip (pyStr env (rowGet row col)))) := by
            rw [hrow2, rowSet_get_self _ _ _ hno]
          have hrc2v : rowGet rc2 col =
              Value.str (pyUpper (pyStrip (pyStr env (rowGet row col)))) := by
            rw [hrc2, rowSet_get_self _ _ _ hno]
          simp only [processCol, runRules, stripConf, htrimS', hw, Bool.true_and, hpns,
            if_true, hty, hps, hidem]
          rw [applyRules_stripped env rlk refs row col
            (Value.str (pyUpper (pyStrip (pyStr env (rowGet row col))))) conf.rules
            (trs col) trb har row2 (trs2 col)]
          dsimp only
          rw [updTr_self, rowSet_self rc2 col _ hwf2 hrc2v]

/-- Row-level round-trip: a row that came out valid re-validates, over the
stripped schema and against its own coerced copy, to the same copy with the
trackers untouched. -/
theorem processCols_roundtrip (env : PyEnv) (rlk : String → Option (List String))
    (refs : List (String × List Row)) :
    ∀ (cols : Schema) (row rc : Row) (trs : Trackers) (rcF : Row) (trsF : Trackers),
      (cols.map Prod.fst).Nodup →
      (∀ p ∈ cols, p.2.type = ColType.float → hasUpperTrim p.2.rules = true →
        ∀ q : ℚ, env.parseFloat (pyUpper (pyStrip (env.showFloat q))) = some q) →
      (∀ p ∈ cols, p.2.type = ColType.integer → hasUpperTrim p.2.rules = true →
        ∀ n : ℤ, intFullParse (pyStrip (pyUpper (pyStrip (env.showInt n)))) = some n) →
      (∀ p ∈ cols, p.2.type = ColType.date → hasUpperTrim p.2.rules = true →
        ∀ d : ℤ, env.parseDate (pyUpper (pyStrip (env.showDate d))) = some d) →
      (∀ p ∈ cols, rowGet rc p.1 = rowGet row p.1) →
      rowWF rc →
      processCols env rlk refs row cols rc trs true = .ok (rcF, trsF, true) →
      ∀ trs2 : Trackers,
        processCols env (fun _ => none) [] rcF (stripSchema cols) rcF trs2 true =
          .ok (rcF, trs2, true) := by
  intro cols
  induction cols with
  | nil =>
    intro row rc trs rcF trsF _ _ _ _ _ _ h trs2
    simp only [processCols] at h
    cases h
    rfl
  | cons cc rest ih =>
    intro row rc trs rcF trsF hnod hLf hLi hLd hag hwf h trs2
    rcases hc : processCol env rlk refs row cc.1 cc.2 rc trs
      with ⟨rc1, trs1, ok1⟩ | ⟨rc1, trs1⟩ | _ <;> simp only [processCols, hc] at h
    · have hok1 : ok1 = true := by
        have := processCols_true_mono env rlk refs row rest rc1 trs1 _ rcF trsF h
        rwa [Bool.true_and] at this
      rw [hok1] at hc
      rw [Bool.true_and, hok1] at h
      obtain ⟨hg1, hk1⟩ := processCol_next_frame hc
      obtain ⟨hgR, hkR⟩ := processCols_frame env rlk refs row rest rc1 trs1 _ _ _ _ h
      simp only [List.map_cons, List.nodup_cons] at hnod
      have hcolnot : ∀ p ∈ rest, p.1 ≠ cc.1 := by
        intro p hp hpe
        exact hnod.1 (hpe ▸ List.mem_map_of_mem Prod.fst hp)
      have hwcol : rowGet rcF cc.1 = rowGet rc1 cc.1 := hgR cc.1 hcolnot
      have hwfF : rowWF rcF := by
        unfold rowWF at hwf ⊢
        rw [hkR, hk1]
        exact hwf
      have hhead := processCol_roundtrip (hLf cc (List.mem_cons_self _ _))
        (hLi cc (List.mem_cons_self _ _)) (hLd cc (List.mem_cons_self _ _))
        (hag cc (List.mem_cons_self _ _)) hc rcF rcF trs2 hwcol hwcol hwfF
      have htail := ih row rc1 trs1 rcF trsF hnod.2
        (fun p hp => hLf p (List.mem_cons_of_mem _ hp))
        (fun p hp => hLi p (List.mem_cons_of_mem _ hp))
        (fun p hp => hLd p (List.mem_cons_of_mem _ hp))
        (fun p hp => by
          rw [hg1 p.1 (hcolnot p hp), hag p (List.mem_cons_of_mem _ hp)])
        (by unfold rowWF at hwf ⊢; rw [hk1]; exact hwf) h trs2
      simp only [stripSchema, List.map_cons] at htail ⊢
      simp only [processCols, hhead]
      exact htail
    · simp at h
    · cases h

theorem valGo_roundtrip (env : PyEnv) (rlk : String → Option (List String))
    (refs : List (String × List Row)) (schema : Schema)
    (hnod : (schema.map Prod.fst).Nodup)
    (hLf : ∀ p ∈ schema, p.2.type = ColType.float → hasUpperTrim p.2.rules = true →
      ∀ q : ℚ, env.parseFloat (pyUpper (pyStrip (env.showFloat q))) = some q)
    (hLi : ∀ p ∈ schema, p.2.type = ColType.integer → hasUpperTrim p.2.rules = true →
      ∀ n : ℤ, intFullParse (pyStrip (pyUpper (pyStrip (env.showInt n)))) = some n)
    (hLd : ∀ p ∈ schema, p.2.type = ColType.date → hasUpperTrim p.2.rules = true →
      ∀ d : ℤ, env.parseDate (pyUpper (pyStrip (env.showDate d))) = some d) :
    ∀ (df : List Row) (trs : Trackers) (vd inv : List Row),
      (∀ r ∈ df, rowWF r) →
      valGo env rlk refs schema df trs = .ok (vd, inv) →
      valGo env (fun _ => none) [] (stripSchema schema) vd (fun _ => []) = .ok (vd, []) := by
  intro df
  induction df with
  | nil =>
    intro trs vd inv _ h
    simp only [valGo] at h
    cases h
    rfl
  | cons r rs ih =>
    intro trs vd inv hwf h
    simp only [valGo, Bind.bind, Except.bind] at h
    rcases hp : processCols env rlk refs r schema r trs true with u | ⟨rcF, trsF, v⟩ <;>
      rw [hp] at h <;> try simp only at h
    · cases h
    · rcases hrest : valGo env rlk refs schema rs trsF with u | ⟨vd', inv'⟩ <;>
        rw [hrest] at h <;> try simp only at h
      · cases h
      · rcases hv : v with _ | _ <;> rw [hv] at h <;>
          simp only [Bool.false_eq_true, if_false, if_true, Pure.pure, Except.pure] at h
        · cases h
          exact ih trsF _ _ (fun x hx => hwf x (List.mem_cons_of_mem _ hx)) hrest
        · cases h
          rw [hv] at hp
          have hhead := processCols_roundtrip env rlk refs schema r r trs rcF trsF hnod
            hLf hLi hLd (fun p _ => rfl) (hwf r (List.mem_cons_self _ _)) hp (fun _ => [])
          have htail := ih trsF _ _ (fun x hx => hwf x (List.mem_cons_of_mem _ hx)) hrest
          simp only [valGo, Bind.bind, Except.bind, hhead, htail, Pure.pure, Except.pure,
            if_true]

/-- C3 counterexample: a row whose integer-typed column coerced successfully
skips that column's rule list entirely (`continue` in `rules.py`), so the
value 99 lands in the valid partition even though its declared non-stateful
constraint `in_range:0:10` evaluates to a failure on it — refuting "every
non-stateful constraint declared for every column holds on every
valid-partition row". -/
theorem C3_integer_rules_skipped_counterexample :
    validate env0 c3Schema [] [[("v", Value.intV 99)]] =
      .ok ([[("v", Value.intV 99)]], []) ∧
    applyRule env0 (fun _ => none) [] [("v", Value.intV 99)] "v" (Value.intV 99) []
      (Rule.in_range 0 10) = RRes.fail := ⟨by decide, rfl⟩

/-- C3 amended: re-validating a valid partition with the same schema, no
referential references and the stateful (uniqueness/referential) rules
stripped yields exactly the same rows as 100% valid and 0% invalid.  The
hypotheses: column names are distinct, rows are well-formed, and — only for
columns that combine `uppercase_trim` with a numeric/date type — the Python
format/parse round-trip laws of the runtime. -/
theorem C3_valid_partition_roundtrip (env : PyEnv) (schema : Schema)
    (refs : List (String × List Row)) (df vd inv : List Row)
    (hnod : (schema.map Prod.fst).Nodup)
    (hLf : ∀ p ∈ schema, p.2.type = ColType.float → hasUpperTrim p.2.rules = true →
      ∀ q : ℚ, env.parseFloat (pyUpper (pyStrip (env.showFloat q))) = some q)
    (hLi : ∀ p ∈ schema, p.2.type = ColType.integer → hasUpperTrim p.2.rules = true →
      ∀ n : ℤ, intFullParse (pyStrip (pyUpper (pyStrip (env.showInt n)))) = some n)
    (hLd : ∀ p ∈ schema, p.2.type = ColType.date → hasUpperTrim p.2.rules = true →
      ∀ d : ℤ, env.parseDate (pyUpper (pyStrip (env.showDate d))) = some d)
    (hrows : ∀ r ∈ df, rowWF r)
    (hrun : validate env schema refs df = .ok (vd, inv)) :
    validate env (stripSchema schema) [] vd = .ok (vd, []) := by
  unfold validate at hrun ⊢
  have hbl : buildRefLookup env (stripSchema schema) [] = fun _ => none := rfl
  rw [hbl]
  exact valGo_roundtrip env (buildRefLookup env schema refs) refs schema hnod hLf hLi hLd
    df (fun _ => []) vd inv hrows hrun

/-- Witness for the amended C3 at a concrete schema and dataset. -/
theorem C3_valid_partition_roundtrip_witness :
    validate env0 uniqSchema [] [[("u", Value.str "K")]] =
      .ok ([[("u", Value.str "K")]], []) ∧
    validate env0 (stripSchema uniqSchema) [] [[("u", Value.str "K")]] =
      .ok ([[("u", Value.str "K")]], []) := by
  refine ⟨by decide, ?_⟩
  refine C3_valid_partition_roundtrip env0 uniqSchema [] [[("u", Value.str "K")]]
    [[("u", Value.str "K")]] [] (by decide) ?_ ?_ ?_ (by decide) (by decide)
  all_goals
    intro p hp hty
    simp only [uniqSchema, List.mem_singleton] at hp
    rw [hp] at hty
    cases hty
